import Mathlib

/-!
# eth-watcher: transaction decoder, listener and notifier

A shallow embedding of the ingestion pipeline of `eth-watcher`
(`ethereum.go`, `subscriber.go`, `database.go`, `eth-watcher.go`) and the
properties of it that the specification states.

Conventions of the embedding:
* a Go `[]byte` is a `List Byte`, a byte is a `Fin 256`;
* a `*big.Int` that is read as a number is an `Int`, a `uint64` is a `Nat`
  reduced modulo `2^64` wherever the program computes with it;
* a Go `(T, error)` result is an `Except String T` carrying the message;
* calls that leave the process (the JSON-RPC node, the SQL store) take their
  answer, or their success, from an explicit argument.
-/

namespace EthWatcher

/-! ## Bytes, big integers, addresses -/

/-- One octet of a Go byte slice. -/
abbrev Byte := Fin 256

/-- Go `make([]byte, n)`: `n` zero bytes. -/
def zeroBytes (n : Nat) : List Byte := List.replicate n 0

/-- Go `big.Int.SetBytes`: the bytes read as a big-endian unsigned integer. -/
def SetBytes (buf : List Byte) : Int :=
  Int.ofNat (buf.foldl (fun acc b => acc * 256 + b.val) 0)

/-- The length of `common.Address`. -/
def AddressLength : Nat := 20

/-- The go-ethereum type `common.Address`, a `[20]byte`. -/
structure Address where
  bytes : List Byte
  size_eq : bytes.length = AddressLength
deriving DecidableEq

/-- The tail of a slice that `Address.SetBytes` keeps: `b[len(b)-AddressLength:]`
when `b` is longer than an address, `b` otherwise. -/
def cropLeft (b : List Byte) : List Byte :=
  if b.length > AddressLength then b.drop (b.length - AddressLength) else b

/-- The go-ethereum function `common.BytesToAddress`: the last 20 bytes of
`b`, or `b` copied to the right end of a zeroed address when it is shorter. -/
def BytesToAddress (b : List Byte) : Address where
  bytes := zeroBytes (AddressLength - (cropLeft b).length) ++ cropLeft b
  size_eq := by
    have h : (cropLeft b).length ≤ AddressLength := by
      unfold cropLeft
      split
      · simp [List.length_drop]; omega
      · omega
    simp [zeroBytes]
    omega

/-- The zero value `common.Address{}`. -/
def zeroAddress : Address := BytesToAddress []

/-! ## ERC-20 calldata: `GetContractDestAddress` -/

/-- The selector of `transfer(address,uint256)`. -/
def transferAddr : List Byte := [0xa9, 0x05, 0x9c, 0xbb]

/-- The selector of `transferFrom(address,address,uint256)`. -/
def transferFromAddr : List Byte := [0x23, 0xb8, 0x72, 0xdd]

/-- The loop `for len(data) > 0` of `GetContractDestAddress`, one iteration
per unit of fuel: a remainder shorter than 32 bytes appends two entries to
`params`, a zero slice of the missing length and then the remainder; otherwise
the next 32 bytes are appended. -/
def paramLoop : Nat → List Byte → List (List Byte) → List (List Byte)
  | 0, _, params => params
  | fuel + 1, data, params =>
    if data.length > 0 then
      if data.length < 32 then
        paramLoop fuel (data.drop data.length)
          ((params ++ [zeroBytes (32 - data.length)]) ++ [data.take data.length])
      else
        paramLoop fuel (data.drop 32) (params ++ [data.take 32])
    else params

/-- The parameter slices the loop builds from the calldata body. Every
iteration removes at least one byte, so `body.length` iterations exhaust it
(`paramLoop_fuel`). -/
def splitParams (body : List Byte) : List (List Byte) :=
  paramLoop body.length body []

/-- The function `GetContractDestAddress` of `ethereum.go`. -/
def GetContractDestAddress (data : List Byte) : Except String (Address × Int) :=
  if data.length < 4 then
    .error "Data size too short"
  else if (transferAddr != data.take 4) && (transferFromAddr != data.take 4) then
    .error "Could not find a valid operation"
  else
    let command := data.take 4
    let data := data.drop 4
    let params := splitParams data
    if transferAddr == command then
      if params.length != 2 then
        .error "Invalid contract transaction parameters"
      else
        .ok (BytesToAddress (params.getD 0 []), SetBytes (params.getD 1 []))
    else if transferFromAddr == command then
      if params.length != 3 then
        .error "Invalid contract transaction parameters"
      else
        .ok (BytesToAddress (params.getD 1 []), SetBytes (params.getD 2 []))
    else
      .ok (zeroAddress, 0)

/-! ## Keccak-256 and the text form of addresses and hashes

`common.Address.Hex` of go-ethereum (the release line this program builds
against, which still ships `crypto/sha3`) prints the EIP-55 checksum form:
the lowercase hexadecimal digits of the address, a letter being upper-cased
when the matching nibble of the Keccak-256 digest of that lowercase text is
above 7. The digest is the one `Keccak256` of `ethereum.go` computes
(`sha3.NewKeccak256`), embedded here in full. -/

/-- The all-ones 64-bit word. -/
def mask64 : Nat := 2 ^ 64 - 1

/-- Rotation of a 64-bit lane to the left. -/
def rotl64 (x n : Nat) : Nat := ((x <<< n) ||| (x >>> (64 - n))) &&& mask64

/-- The round constants of Keccak-f[1600]. -/
def roundConstants : List Nat :=
  [0x0000000000000001, 0x0000000000008082, 0x800000000000808A, 0x8000000080008000,
   0x000000000000808B, 0x0000000080000001, 0x8000000080008081, 0x8000000000008009,
   0x000000000000008A, 0x0000000000000088, 0x0000000080008009, 0x000000008000000A,
   0x000000008000808B, 0x800000000000008B, 0x8000000000008089, 0x8000000000008003,
   0x8000000000008002, 0x8000000000000080, 0x000000000000800A, 0x800000008000000A,
   0x8000000080008081, 0x8000000000008080, 0x0000000080000001, 0x8000000080008008]

/-- The rotation offsets of the step rho, for the lane at index `x + 5 * y`. -/
def rotationOffsets : List Nat :=
  [ 0,  1, 62, 28, 27,
   36, 44,  6, 55, 20,
    3, 10, 43, 25, 39,
   41, 45, 15, 21,  8,
   18,  2, 61, 56, 14]

/-- The lane `(x, y)` of a state of 25 lanes, coordinates taken modulo 5. -/
def lane (a : List Nat) (x y : Nat) : Nat := a.getD (x % 5 + 5 * (y % 5)) 0

/-- The step theta: every lane is xored with the parities of two columns. -/
def theta (a : List Nat) : List Nat :=
  let c := (List.range 5).map fun x =>
    lane a x 0 ^^^ lane a x 1 ^^^ lane a x 2 ^^^ lane a x 3 ^^^ lane a x 4
  let d := (List.range 5).map fun x =>
    c.getD ((x + 4) % 5) 0 ^^^ rotl64 (c.getD ((x + 1) % 5) 0) 1
  (List.range 25).map fun i => a.getD i 0 ^^^ d.getD (i % 5) 0

/-- The steps rho and pi: the lane `(x, y)` is rotated and moved to
`(y, 2 x + 3 y)`; read backwards, position `(u, w)` receives the lane
`(u + 3 w, u)`. -/
def rhoPi (a : List Nat) : List Nat :=
  (List.range 25).map fun i =>
    let x := (i % 5 + 3 * (i / 5)) % 5
    let y := i % 5
    rotl64 (lane a x y) (rotationOffsets.getD (x + 5 * y) 0)

/-- The step chi, the only non-linear one. -/
def chi (b : List Nat) : List Nat :=
  (List.range 25).map fun i =>
    lane b (i % 5) (i / 5) ^^^
      ((lane b (i % 5 + 1) (i / 5) ^^^ mask64) &&& lane b (i % 5 + 2) (i / 5))

/-- The step iota: the round constant is xored into lane `(0, 0)`. -/
def iota (rc : Nat) (a : List Nat) : List Nat :=
  match a with
  | [] => []
  | h :: t => (h ^^^ rc) :: t

/-- One round of the permutation. -/
def keccakRound (a : List Nat) (rc : Nat) : List Nat := iota rc (chi (rhoPi (theta a)))

/-- The permutation Keccak-f[1600], 24 rounds. -/
def keccakF (a : List Nat) : List Nat := roundConstants.foldl keccakRound a

/-- The rate of Keccak-256 in bytes. -/
def rate : Nat := 136

/-- Eight bytes read as a little-endian lane. -/
def leLane (bs : List Byte) : Nat := bs.foldr (fun b acc => b.val + 256 * acc) 0

/-- The first `n` lanes of a block. -/
def lanesOf : Nat → List Byte → List Nat
  | 0, _ => []
  | n + 1, bs => leLane (bs.take 8) :: lanesOf n (bs.drop 8)

/-- One block is xored into the state, which is then permuted. -/
def absorbBlock (st : List Nat) (block : List Byte) : List Nat :=
  let ls := lanesOf 17 block
  keccakF ((List.range 25).map fun i => st.getD i 0 ^^^ ls.getD i 0)

/-- The padding of the original Keccak submission: a byte `0x01`, zeros, and
the top bit of the last byte of the block. -/
def pad (msg : List Byte) : List Byte :=
  let q := rate - msg.length % rate
  if q = 1 then msg ++ [0x81]
  else msg ++ [0x01] ++ zeroBytes (q - 2) ++ [0x80]

/-- The absorbing phase over `n` blocks. -/
def absorb : Nat → List Nat → List Byte → List Nat
  | 0, st, _ => st
  | n + 1, st, bs => absorb n (absorbBlock st (bs.take rate)) (bs.drop rate)

/-- The eight bytes of a lane, least significant first. -/
def laneBytes (l : Nat) : List Byte :=
  (List.range 8).map fun i => Fin.ofNat ((l >>> (8 * i)) % 256)

/-- The function `Keccak256` of `ethereum.go`: the 32-byte Keccak-256 digest. -/
def Keccak256 (msg : List Byte) : List Byte :=
  let p := pad msg
  let st := absorb (p.length / rate) (List.replicate 25 0) p
  ((st.take 4).map laneBytes).flatten

/-- The digits of Go `hex.EncodeToString`. -/
def hexDigits : List Char := "0123456789abcdef".data

/-- The two lowercase hexadecimal digits of a byte. -/
def hexByte (b : Byte) : List Char :=
  [hexDigits.getD (b.val / 16) '0', hexDigits.getD (b.val % 16) '0']

/-- Go `hex.EncodeToString`, as a list of characters. -/
def hexEncode (bs : List Byte) : List Char := bs.flatMap hexByte

/-- The bytes of an ASCII text, Go `[]byte(s)`. -/
def asciiBytes (s : List Char) : List Byte := s.map fun c => Fin.ofNat c.toNat

/-- The character at index `i` of the checksummed text: `result[i] -= 32`
when `result[i] > '9'` and the nibble `i` of the digest is above 7. -/
def checksumChar (hash : List Byte) (i : Nat) (c : Char) : Char :=
  let hashByte := (hash.getD (i / 2) 0).val
  let hashByte := if i % 2 = 0 then hashByte >>> 4 else hashByte &&& 0xf
  if c.toNat > '9'.toNat && hashByte > 7 then Char.ofNat (c.toNat - 32) else c

/-- The characters of `Address.Hex` after the prefix `0x`. -/
def checksumHex (a : Address) : List Char :=
  let unchecksummed := hexEncode a.bytes
  let hash := Keccak256 (asciiBytes unchecksummed)
  (List.range unchecksummed.length).map fun i =>
    checksumChar hash i (unchecksummed.getD i '0')

/-- The go-ethereum method `common.Address.Hex`. -/
def Address.Hex (a : Address) : String := "0x" ++ String.mk (checksumHex a)

/-- The go-ethereum type `common.Hash`, a `[32]byte`. -/
structure Hash where
  bytes : List Byte
  size_eq : bytes.length = 32
deriving DecidableEq

/-- The go-ethereum method `common.Hash.Hex`: `0x` and lowercase digits. -/
def Hash.Hex (h : Hash) : String := "0x" ++ String.mk (hexEncode h.bytes)

/-- The Go slice expression `s[2:]` on a text of one-byte characters. -/
def from2 (s : String) : String := String.mk (s.data.drop 2)

/-! ## Transactions and the decoder: `ParseTransaction` -/

/-- The fields of `types.Transaction`. `To` is absent on a contract creation;
`value` is the amount in wei, unsigned on the wire; `hash` is `tx.Hash()`. -/
structure Transaction where
  To : Option Address
  value : Nat
  data : List Byte
  nonce : Nat
  gasPrice : Nat
  gasLimit : Nat
  v : Nat
  r : Nat
  s : Nat
  hash : Hash

/-- The two signers `GetTransactionFrom` chooses between. -/
inductive Signer where
  | HomesteadSigner
  | EIP155Signer (chainId : Int)
deriving DecidableEq

/-- The go-ethereum calls whose code needs the curve secp256k1 or the wire
format, taken as parameters: `tx.Protected()`, `tx.ChainId()`,
`tx.AsMessage(signer)` followed by `msg.From()` (the recovered sender, or the
error of the recovery), and `common.HexToHash`. -/
structure Geth where
  Protected : Transaction → Bool
  ChainId : Transaction → Int
  AsMessage : Transaction → Signer → Except String Address
  HexToHash : String → Hash

/-- The function `GetTransactionFrom` of `ethereum.go`. -/
def GetTransactionFrom (lib : Geth) (tx : Transaction) : Except String Address :=
  let signer :=
    if tx.v != 0 && lib.Protected tx then Signer.EIP155Signer (lib.ChainId tx)
    else Signer.HomesteadSigner
  match lib.AsMessage tx signer with
  | .error err => .error err
  | .ok msgFrom => .ok msgFrom

/-- The constant `NOTIFY_TYPE_NONE`. -/
def NOTIFY_TYPE_NONE : Nat := 0
/-- The constant `NOTIFY_TYPE_TX`. -/
def NOTIFY_TYPE_TX : Nat := 1
/-- The constant `NOTIFY_TYPE_ADMIN`. -/
def NOTIFY_TYPE_ADMIN : Nat := 2

/-- The struct `NotifyMessage` of `eth-watcher.go`. `Amount` is a `*big.Int`:
`none` is the nil pointer, `some n` the number the pointer leads to when the
message is looked at. -/
structure NotifyMessage where
  MessageType : Nat
  AddressFrom : String
  AddressTo : String
  Amount : Option Int
  ContractAddress : String
  IsPending : Bool
  TxHash : String
deriving DecidableEq

/-- The zero value `NotifyMessage{}`. -/
def emptyMessage : NotifyMessage :=
  { MessageType := NOTIFY_TYPE_NONE, AddressFrom := "", AddressTo := "", Amount := none,
    ContractAddress := "", IsPending := false, TxHash := "" }

/-- The function `ParseTransaction` of `ethereum.go`. An error of
`GetContractDestAddress` is not returned: it selects the branch that reports
a plain transfer of `tx.Value()` to `tx.To()`. -/
def ParseTransaction (lib : Geth) (tx : Option Transaction) (isPending : Bool) :
    Except String NotifyMessage :=
  match tx with
  | none => .error "Transaction is nil: Can't parse."
  | some tx =>
    match tx.To with
    | none => .ok emptyMessage
    | some txTo =>
      match GetTransactionFrom lib tx with
      | .error err => .error err
      | .ok sender =>
        match GetContractDestAddress tx.data with
        | .error _ =>
          .ok { MessageType := NOTIFY_TYPE_TX
                AddressFrom := from2 sender.Hex
                AddressTo := from2 txTo.Hex
                Amount := some (Int.ofNat tx.value)
                ContractAddress := ""
                IsPending := isPending
                TxHash := from2 tx.hash.Hex }
        | .ok (dest, value) =>
          .ok { MessageType := NOTIFY_TYPE_TX
                AddressFrom := from2 sender.Hex
                AddressTo := from2 dest.Hex
                Amount := some value
                ContractAddress := from2 txTo.Hex
                IsPending := isPending
                TxHash := from2 tx.hash.Hex }

/-! ## The JSON-RPC node, `ReadTransaction` and `ReadBlock` -/

/-- The part of `types.Block` the watcher reads. -/
structure Block where
  number : Nat
  transactions : List Transaction

/-- The answers of the node behind `ethclient.Client`. The first argument of
each call is the number of calls the Listener has made before it, so the node
may answer the same request differently at different times. In
`BlockByNumber` the number `none` is the nil pointer, which asks for the
latest block. -/
structure Client where
  BlockByHash : Nat → Hash → Except String Block
  BlockByNumber : Nat → Option Nat → Except String Block
  TransactionByHash : Nat → Hash → Except String (Transaction × Bool)

/-- The function `ReadTransaction` of `ethereum.go`, called at time `t`. -/
def ReadTransaction (lib : Geth) (client : Client) (t : Nat) (hashStr : String) :
    Except String NotifyMessage :=
  let hash := lib.HexToHash hashStr
  match client.TransactionByHash t hash with
  | .error err => .error ("ReadTransaction(" ++ hash.Hex ++ ") failed: " ++ err)
  | .ok (tx, pending) => ParseTransaction lib (some tx) pending

/-- The loop over `block.Transactions()` in `ReadBlock`: the messages parsed
so far and, when a transaction fails to parse, the error that ends the loop. -/
def parseLoop (lib : Geth) : List Transaction → List NotifyMessage →
    List NotifyMessage × Option String
  | [], messages => (messages, none)
  | tx :: rest, messages =>
    match ParseTransaction lib (some tx) false with
    | .error err => (messages, some err)
    | .ok message => parseLoop lib rest (messages ++ [message])

/-- The function `ReadBlock` of `ethereum.go`, called at time `t`. The three
results are the block number (nil when the fetch failed), the messages, and
the error (`none` for nil). -/
def ReadBlock (lib : Geth) (client : Client) (t : Nat) (hashStr : String)
    (number : Option Nat) : Option Nat × List NotifyMessage × Option String :=
  let fetched :=
    if hashStr != "" then client.BlockByHash t (lib.HexToHash hashStr)
    else client.BlockByNumber t number
  match fetched with
  | .error err => (none, [], some ("ReadBlock failed: " ++ err))
  | .ok block =>
    let (messages, err) := parseLoop lib block.transactions []
    (some block.number, messages, err)

/-! ## The Listener of `subscriber.go` -/

/-- The constant `TYPE_BLOCK_HASH`. -/
def TYPE_BLOCK_HASH : Nat := 0
/-- The constant `TYPE_TXN_HASH`. -/
def TYPE_TXN_HASH : Nat := 1

/-- The struct `ObjMessage`; `Kind` is its field `Type`. `Number` is a `*big.Int` that `ConnectWS` sets
from a decoded hex quantity in a block message and leaves nil in a
transaction message, where it is never read and stands as 0 here. -/
structure ObjMessage where
  Kind : Nat
  Hash : String
  Number : Nat

/-- An RPC request the Listener has issued. -/
inductive RpcCall where
  | blockByHash (h : String)
  | blockByNumber (n : Option Nat)
  | transactionByHash (h : String)
deriving DecidableEq

/-- The request `ReadBlock` issues for its arguments. -/
def readBlockCall (hashStr : String) (number : Option Nat) : RpcCall :=
  if hashStr != "" then .blockByHash hashStr else .blockByNumber number

/-- What a run of the Listener has done so far: the variable `last_id`, the
messages sent on `notifyChannel` (oldest first, each with the number its
`Amount` points to now), and the RPC requests issued (oldest first). -/
structure ListenerState where
  last_id : Nat
  sent : List NotifyMessage
  calls : List RpcCall

/-- The message `NotifyMessage{MessageType: NOTIFY_TYPE_ADMIN, Amount: last}`. -/
def adminMessage (last : Option Int) : NotifyMessage :=
  { emptyMessage with MessageType := NOTIFY_TYPE_ADMIN, Amount := last }

/-- The effect of `last.SetUint64(v)` on the messages the recovery loop has
sent: a message marked `true` has the pointer `last` as its `Amount`, so it
holds `v` from now on; the others keep their own number. -/
def setShared (v : Int) (out : List (NotifyMessage × Bool)) : List (NotifyMessage × Bool) :=
  out.map fun p => if p.2 then ({ p.1 with Amount := some v }, true) else p

/-- The loop `for 0 != last.Cmp(message.Number)` of the Listener, one
iteration per unit of fuel; `none` when the fuel runs out before the loop
ends. `out` lists the messages the loop has sent, each marked when its
`Amount` is the pointer `last`. A failed `ReadBlock` leaves `last` as it is
and the loop tries again; otherwise the messages of the block are sent, then
`NotifyMessage{MessageType: NOTIFY_TYPE_ADMIN, Amount: last}`, and
`last.SetUint64(last.Uint64() + 1)`, a `uint64` sum, changes the number in
place, under the admin messages already sent. -/
def gapFill (lib : Geth) (client : Client) :
    Nat → Nat → Nat → ListenerState → List (NotifyMessage × Bool) → Option ListenerState
  | 0, _, _, _, _ => none
  | fuel + 1, last, number, st, out =>
    if last ≠ number then
      let (_, txns, err) := ReadBlock lib client st.calls.length "" (some last)
      let st := { st with calls := st.calls ++ [readBlockCall "" (some last)] }
      match err with
      | some _ => gapFill lib client fuel last number st out
      | none =>
        gapFill lib client fuel ((last % 2 ^ 64 + 1) % 2 ^ 64) number st
          (setShared (Int.ofNat ((last % 2 ^ 64 + 1) % 2 ^ 64))
            (out ++ txns.map (fun txn => (txn, false)) ++
              [(adminMessage (some (Int.ofNat last)), true)]))
    else some { st with sent := st.sent ++ out.map Prod.fst }

/-- The recovery of the Listener from the cursor `last` to the header number:
the loop above, entered with nothing sent yet. When it ends `last` goes out of
scope and the numbers of its messages stay as they are. -/
def recoveryLoop (lib : Geth) (client : Client) (fuel last number : Nat)
    (st : ListenerState) : Option ListenerState :=
  gapFill lib client fuel last number st []

/-- The body of the Listener's `for message := range ch` for one message;
`fuel` bounds the iterations of the recovery loop. -/
def listenerStep (lib : Geth) (client : Client) (fuel : Nat) (st : ListenerState)
    (message : ObjMessage) : Option ListenerState :=
  if message.Kind = TYPE_BLOCK_HASH then
    let recovered :=
      if st.last_id ≠ 0 then
        (recoveryLoop lib client fuel ((st.last_id + 1) % 2 ^ 64) message.Number st).map
          fun st => { st with last_id := 0 }
      else some st
    match recovered with
    | none => none
    | some st =>
      let (last, txns, err) := ReadBlock lib client st.calls.length message.Hash none
      let st := { st with calls := st.calls ++ [readBlockCall message.Hash none] }
      match err with
      | some _ => some st
      | none =>
        some { st with sent := st.sent ++ txns ++ [adminMessage (last.map Int.ofNat)] }
  else if message.Kind = TYPE_TXN_HASH then
    let res := ReadTransaction lib client st.calls.length message.Hash
    let st := { st with calls := st.calls ++ [RpcCall.transactionByHash message.Hash] }
    match res with
    | .error _ => some st
    | .ok txn => some { st with sent := st.sent ++ [txn] }
  else some st

/-- The Listener over the messages it receives from the channel, in order. -/
def listenerRun (lib : Geth) (client : Client) (fuel : Nat) :
    List ObjMessage → ListenerState → Option ListenerState
  | [], st => some st
  | message :: rest, st =>
    match listenerStep lib client fuel st message with
    | none => none
    | some st => listenerRun lib client fuel rest st

/-- The function `Listener` of `subscriber.go`, started with `last_id`, on
the messages `ch` delivers. -/
def Listener (lib : Geth) (client : Client) (fuel : Nat) (ch : List ObjMessage)
    (last_id : Nat) : Option ListenerState :=
  listenerRun lib client fuel ch { last_id := last_id, sent := [], calls := [] }

/-! ## The store of `database.go` and the Notifier -/

/-- A row of the table `notifications` (the column `created_at` is never read). -/
structure NotificationRow where
  id : Nat
  address_from : String
  address_to : String
  address_contract : String
  amount : String
  is_pending : Bool
  tx_hash : String
deriving DecidableEq

/-- The three tables behind `DB.Interface`: `eth_keys` as (address, private),
`settings` as (name, value), and the `AUTO_INCREMENT` counter of
`notifications`. -/
structure DB where
  eth_keys : List (String × String)
  notifications : List NotificationRow
  settings : List (String × String)
  next_id : Nat

/-- SQL `LOWER`. -/
def sqlLower (s : String) : String := String.mk (s.data.map Char.toLower)

/-- SQL `=` on two `VARCHAR` values under the case-insensitive collation the
schema of `InitTables` leaves in place. -/
def sqlEq (a b : String) : Bool := sqlLower a == sqlLower b

/-- The method `DB.InsertNotification`. `fault` is the error the driver
answers `Prepare` or `Exec` with, `none` when both succeed; under the strict
SQL mode a value longer than its column is such an error, so a row that is
stored holds the values as they were given. -/
def InsertNotification (fault : Option String) (db : DB)
    (address_from address_to address_contract amount : String) (is_pending : Bool)
    (tx_hash : String) : Except String DB :=
  match fault with
  | some err => .error err
  | none =>
    .ok { db with
          notifications := db.notifications ++
            [{ id := db.next_id, address_from := address_from, address_to := address_to,
               address_contract := address_contract, amount := amount,
               is_pending := is_pending, tx_hash := tx_hash }]
          next_id := db.next_id + 1 }

/-- The method `DB.IsAddressKnown`: whether
`SELECT id FROM eth_keys WHERE address = LOWER(?)` has a row. -/
def IsAddressKnown (fault : Option String) (db : DB) (address : String) :
    Except String Bool :=
  match fault with
  | some err => .error err
  | none => .ok (db.eth_keys.any fun key => sqlEq key.1 (sqlLower address))

/-- The method `DB.SetSetting`: an insert that updates the value when the
unique name is already there. -/
def SetSetting (fault : Option String) (db : DB) (name value : String) : Except String DB :=
  match fault with
  | some err => .error err
  | none =>
    if db.settings.any (fun kv => sqlEq kv.1 name) then
      .ok { db with
            settings := db.settings.map fun kv => if sqlEq kv.1 name then (kv.1, value) else kv }
    else
      .ok { db with settings := db.settings ++ [(name, value)] }

/-- The method `DB.GetSetting`: the value of the first row
`WHERE name = LOWER(?)`, or the error of `Scan` when there is none. -/
def GetSetting (fault : Option String) (db : DB) (name : String) : Except String String :=
  match fault with
  | some err => .error err
  | none =>
    match db.settings.find? fun kv => sqlEq kv.1 (sqlLower name) with
    | some kv => .ok kv.2
    | none => .error "sql: no rows in result set"

/-- Go `(*big.Int).Text(10)`, which prints a nil pointer as `<nil>`. -/
def Text10 : Option Int → String
  | none => "<nil>"
  | some (Int.ofNat n) => Nat.repr n
  | some (Int.negSucc n) => "-" ++ Nat.repr (n + 1)

/-- The errors the store answers the operations of one message with: the
Notifier issues `IsAddressKnown` and then `InsertNotification` for a
transaction message and `SetSetting` for an admin message. -/
structure StoreFaults where
  isAddressKnown : Option String
  insertNotification : Option String
  setSetting : Option String

/-- No operation fails. -/
def noFaults : StoreFaults :=
  { isAddressKnown := none, insertNotification := none, setSetting := none }

/-- The body of the Notifier's `for message := range ch` for one message. -/
def notifierStep (db : DB) (message : NotifyMessage) (faults : StoreFaults) : DB :=
  if message.MessageType = NOTIFY_TYPE_NONE then db
  else if message.MessageType = NOTIFY_TYPE_ADMIN then
    match SetSetting faults.setSetting db "last_block" (Text10 message.Amount) with
    | .error _ => db
    | .ok db => db
  else
    match IsAddressKnown faults.isAddressKnown db message.AddressTo with
    | .error _ => db
    | .ok isKnown =>
      if isKnown = false then db
      else
        match InsertNotification faults.insertNotification db message.AddressFrom
            message.AddressTo message.ContractAddress (Text10 message.Amount)
            message.IsPending message.TxHash with
        | .error _ => db
        | .ok db => db

/-- The function `Notifier` of `subscriber.go` over the messages the channel
delivers, each with the faults of the store while it is handled. -/
def Notifier (db : DB) : List (NotifyMessage × StoreFaults) → DB
  | [] => db
  | (message, faults) :: rest => Notifier (notifierStep db message faults) rest

/-! ## The calldata of the claims, encoded as the specification words it -/

/-- The `n` low bytes of `v`, most significant first. -/
def bigEndian : Nat → Nat → List Byte
  | 0, _ => []
  | n + 1, v => bigEndian n (v / 256) ++ [Fin.ofNat (v % 256)]

/-- The calldata of `transfer(a, v)`: the selector `a9059cbb`, the address
left-padded with 12 zero bytes to a word, and `v` as a 32-byte big-endian word. -/
def transferCalldata (a : Address) (v : Nat) : List Byte :=
  transferAddr ++ (zeroBytes 12 ++ a.bytes) ++ bigEndian 32 v

/-! ## Concrete inputs -/

/-- The number a text of hexadecimal digits after a two-character prefix
spells. -/
def hexValue (s : String) : Nat :=
  (s.data.drop 2).foldl (fun acc c => acc * 16 + hexDigits.indexOf c) 0

/-- A stand-in for the go-ethereum calls, to run the decoder on concrete
transactions: a signature with `r = 0` is rejected, any other recovers the
sender whose bytes are the 20 low bytes of `r`; the hash of a text is the
number it spells, as 32 bytes. -/
def stubGeth : Geth where
  Protected := fun tx => tx.v != 27 && tx.v != 28
  ChainId := fun tx => (Int.ofNat tx.v - 35) / 2
  AsMessage := fun tx _ =>
    if tx.r = 0 then .error "invalid transaction v, r, s values"
    else .ok (BytesToAddress (bigEndian 20 tx.r))
  HexToHash := fun s => ⟨List.replicate 32 (Fin.ofNat (hexValue s)), by simp⟩

/-- The address `5aaeb6053f3e94c9b9a09f33669435e7ef1beaed`. -/
def sampleAddress : Address :=
  BytesToAddress [0x5a, 0xae, 0xb6, 0x05, 0x3f, 0x3e, 0x94, 0xc9, 0xb9, 0xa0,
                  0x9f, 0x33, 0x66, 0x94, 0x35, 0xe7, 0xef, 0x1b, 0xea, 0xed]

/-- The address `0000000000000000000000000000000000000001`. -/
def lowAddress : Address := BytesToAddress [1]

/-- A transaction hash. -/
def sampleHash : Hash := ⟨List.replicate 32 7, by simp⟩

/-- A signed transaction of 10^18 wei to `sampleAddress` with the given
calldata and nonce; the stand-in signer recovers the sender `r = 1`. -/
def sampleTx (data : List Byte) (nonce : Nat) : Transaction :=
  { To := some sampleAddress, value := 10 ^ 18, data := data, nonce := nonce, gasPrice := 1,
    gasLimit := 60000, v := 27, r := 1, s := 1, hash := sampleHash }

/-- A signed plain transfer of `value` wei to `sampleAddress`. -/
def transferOf (value : Nat) : Transaction :=
  { sampleTx [] 0 with value := value }

/-- A plain transfer whose signature the stand-in signer rejects. -/
def unsignedTx : Transaction :=
  { sampleTx [] 0 with r := 0 }

/-- The block number `n` of a toy chain: one transfer of `n` wei. -/
def sampleBlock (n : Nat) : Block :=
  { number := n, transactions := [transferOf n] }

/-- A node that serves the toy chain at every time; the block behind a hash
is the one whose number is the first byte of the hash. -/
def sampleClient : Client where
  BlockByHash := fun _ h => .ok (sampleBlock (h.bytes.headD 0).val)
  BlockByNumber := fun _ n =>
    match n with
    | some n => .ok (sampleBlock n)
    | none => .error "not found"
  TransactionByHash := fun _ _ => .error "not found"

/-- A node whose every block holds three transfers, the second with a
signature that does not recover. -/
def faultyClient : Client where
  BlockByHash := fun _ h =>
    .ok { number := (h.bytes.headD 0).val
          transactions := [transferOf 1, unsignedTx, transferOf 3] }
  BlockByNumber := fun _ _ => .error "not found"
  TransactionByHash := fun _ _ => .error "not found"

/-- The message `ParseTransaction` builds for a plain transfer of `value`
from `sender` to `dest`. -/
def plainTransferMessage (sender dest : Address) (value : Nat) (isPending : Bool)
    (hash : Hash) : NotifyMessage :=
  { MessageType := NOTIFY_TYPE_TX, AddressFrom := from2 sender.Hex, AddressTo := from2 dest.Hex,
    Amount := some (Int.ofNat value), ContractAddress := "", IsPending := isPending,
    TxHash := from2 hash.Hex }

/-- A hexadecimal digit in lowercase. -/
def isLowerHexDigit (c : Char) : Bool := c.isDigit || ('a' ≤ c && c ≤ 'f')

/-- A hexadecimal digit of either case. -/
def isHexDigit (c : Char) : Bool := isLowerHexDigit c || ('A' ≤ c && c ≤ 'F')

/-- The canonical form of an address in the specification: exactly 40
lowercase hexadecimal digits, hence no prefix `0x`. -/
def isCanonicalAddress (s : String) : Bool :=
  s.data.length == 40 && s.data.all isLowerHexDigit

/-- The form `ParseTransaction` writes: exactly 40 hexadecimal digits of
either case whose lowercase is the hexadecimal text of the address `a`. -/
def isAddressText (a : Address) (s : String) : Prop :=
  s.data.length = 40 ∧ (∀ c ∈ s.data, isHexDigit c = true) ∧
    s.data.map Char.toLower = hexEncode a.bytes

/-- The messages of a block in the order of its transactions, one for each
transaction that parses. -/
def blockEvents (lib : Geth) (b : Block) : List NotifyMessage :=
  b.transactions.filterMap fun tx => (ParseTransaction lib (some tx) false).toOption

/-- Every transaction of the block parses. -/
def allParse (lib : Geth) (b : Block) : Prop :=
  ∀ tx ∈ b.transactions, ∃ m, ParseTransaction lib (some tx) false = .ok m

/-- The messages of block `n` followed by an admin message that holds
`number`. -/
def blockThenShared (lib : Geth) (blk : Nat → Block) (number n : Nat) : List NotifyMessage :=
  blockEvents lib (blk n) ++ [adminMessage (some (Int.ofNat number))]

/-- The row carries the fields of the message as `InsertNotification` is
given them by the Notifier. -/
def carries (row : NotificationRow) (m : NotifyMessage) : Prop :=
  row.address_from = m.AddressFrom ∧ row.address_to = m.AddressTo ∧
  row.address_contract = m.ContractAddress ∧ row.amount = Text10 m.Amount ∧
  row.is_pending = m.IsPending ∧ row.tx_hash = m.TxHash

/-- A store with one registered key, for the address
`5aaeb6053f3e94c9b9a09f33669435e7ef1beaed`, and nothing else. -/
def sampleDB : DB :=
  { eth_keys := [("5aaeb6053f3e94c9b9a09f33669435e7ef1beaed",
      "0000000000000000000000000000000000000000000000000000000000000001")]
    notifications := []
    settings := []
    next_id := 1 }

/-- A Tx message of block 7: 10^18 wei to the registered address. -/
def sampleTxMessage : NotifyMessage :=
  { MessageType := NOTIFY_TYPE_TX
    AddressFrom := "0000000000000000000000000000000000000001"
    AddressTo := "5aAeb6053F3E94C9b9A09f33669435E7Ef1BeAed"
    Amount := some (10 ^ 18)
    ContractAddress := ""
    IsPending := false
    TxHash := "0707070707070707070707070707070707070707070707070707070707070707" }

/-- The store refuses the insert of one message. -/
def insertFails : StoreFaults :=
  { noFaults with insertNotification := some "Error 2006: MySQL server has gone away" }

/-! ## The drain of `database.go`: `GetNotifications` -/

/-- Go `strconv.ParseUint(s, 10, 64)`, which `rows.Scan` applies to a text
column read into a `uint64`: a non-empty run of decimal digits whose value is
below `2^64`. -/
def ParseUint (s : String) : Except String Nat :=
  if s.data = [] then .error "invalid syntax"
  else if s.data.all Char.isDigit then
    let n := s.data.foldl (fun acc c => acc * 10 + (c.toNat - '0'.toNat)) 0
    if n < 2 ^ 64 then .ok n else .error "value out of range"
  else .error "invalid syntax"

/-- The order of `ORDER BY id ASC`. -/
def idLE (a b : NotificationRow) : Prop := a.id ≤ b.id

instance : DecidableRel idLE := fun a b => inferInstanceAs (Decidable (a.id ≤ b.id))

instance : IsTotal NotificationRow idLE := ⟨fun a b => Nat.le_total a.id b.id⟩

instance : IsTrans NotificationRow idLE := ⟨fun _ _ _ h1 h2 => Nat.le_trans h1 h2⟩

/-- The rows of `SELECT … FROM notifications ORDER BY id ASC LIMIT 100`. -/
def selectPage (db : DB) : List NotificationRow :=
  (db.notifications.insertionSort idLE).take 100

/-- The message `rows.Scan` fills from a row whose amount it has read as the
`uint64` `amount`; `MessageType` keeps its zero value. -/
def scannedMessage (row : NotificationRow) (amount : Nat) : NotifyMessage :=
  { MessageType := 0, AddressFrom := row.address_from, AddressTo := row.address_to,
    Amount := some (Int.ofNat amount), ContractAddress := row.address_contract,
    IsPending := row.is_pending, TxHash := row.tx_hash }

/-- The loop `for rows.Next()` of `GetNotifications`: the variable `id` after
the last `Scan`, and the messages, or the error of the first `Scan` that
fails, on which the function returns. -/
def scanLoop : List NotificationRow → Nat → List NotifyMessage →
    Nat × Except String (List NotifyMessage)
  | [], id, msgs => (id, .ok msgs)
  | row :: rest, _, msgs =>
    match ParseUint row.amount with
    | .error err => (row.id, .error ("sql: Scan error on column index 4: " ++ err))
    | .ok amount => scanLoop rest row.id (msgs ++ [scannedMessage row amount])

/-- The errors the store answers the steps of one `GetNotifications` with.
The error of `stmt.Query()` is not looked at by the program, which goes on to
call `rows.Next()` on the nil result. -/
structure DrainFaults where
  prepareSelect : Option String
  query : Option String
  rowsErr : Option String
  prepareDelete : Option String
  execDelete : Option String

/-- No step fails. -/
def noDrainFaults : DrainFaults :=
  { prepareSelect := none, query := none, rowsErr := none, prepareDelete := none,
    execDelete := none }

/-- How a call of `GetNotifications` ends: it returns the messages and the
error (`none` for nil), or it panics. -/
inductive DrainReturn where
  | value (msgs : List NotifyMessage) (err : Option String)
  | panic (what : String)
deriving DecidableEq

/-- The method `DB.GetNotifications`: what it returns and the store after it. -/
def GetNotifications (faults : DrainFaults) (db : DB) (remove : Bool) : DrainReturn × DB :=
  match faults.prepareSelect with
  | some err => (.value [] (some err), db)
  | none =>
    match faults.query with
    | some _ => (.panic "invalid memory address or nil pointer dereference", db)
    | none =>
      match scanLoop (selectPage db) 0 [] with
      | (_, .error err) => (.value [] (some err), db)
      | (id, .ok msgs) =>
        match faults.rowsErr with
        | some err => (.value [] (some err), db)
        | none =>
          if false == remove then (.value msgs none, db)
          else
            match faults.prepareDelete with
            | some err => (.value msgs (some err), db)
            | none =>
              match faults.execDelete with
              | some err => (.value msgs (some err), db)
              | none =>
                (.value msgs none,
                 { db with
                   notifications := db.notifications.filter fun row => !decide (row.id ≤ id) })

/-- The address is registered: the table `eth_keys` holds it, letter case
apart. -/
def registered (db : DB) (address : String) : Prop :=
  ∃ key ∈ db.eth_keys, sqlLower key.1 = sqlLower address

/-- The row `InsertNotification` writes for a message when the counter of the
table stands at `id`. -/
def rowOf (id : Nat) (m : NotifyMessage) : NotificationRow :=
  { id := id, address_from := m.AddressFrom, address_to := m.AddressTo,
    address_contract := m.ContractAddress, amount := Text10 m.Amount,
    is_pending := m.IsPending, tx_hash := m.TxHash }

/-- The number a text of decimal digits spells. -/
def decimalValue (s : String) : Nat :=
  s.data.foldl (fun acc c => acc * 10 + (c.toNat - '0'.toNat)) 0

/-- A Tx message of `amount` wei to the registered address of `sampleDB`. -/
def txMessageOf (amount : Int) : NotifyMessage :=
  { sampleTxMessage with Amount := some amount }

/-- A table of `n` rows with the ids `n, n-1, …, 1`, the row `i` holding the
amount `i`. -/
def rowsDown : Nat → List NotificationRow
  | 0 => []
  | n + 1 => rowOf (n + 1) (txMessageOf (Int.ofNat (n + 1))) :: rowsDown n

/-- A store whose table of notifications is `rows`. -/
def storeOf (rows : List NotificationRow) : DB :=
  { sampleDB with notifications := rows, next_id := rows.length + 1 }

/-- The variable `id` of `GetNotifications` after the scan of `rows`, started
at `id`: the id of the last row, when there is one. -/
def lastScannedId : List NotificationRow → Nat → Nat
  | [], id => id
  | row :: rest, _ => lastScannedId rest row.id

/-! ## The WebSocket reader of `subscriber.go`: `ConnectWS` -/

/-- The struct `SubscriptionResponse`. -/
structure SubscriptionResponse where
  Id : Int
  Result : String

/-- The struct `BlockHeader`. -/
structure BlockHeader where
  ParentHash : String
  Difficulty : String
  Number : String
  GasLimit : String
  GasUsed : String
  Timestamp : String
  Hash : String

/-- The dynamic value `json.Unmarshal` leaves in an `interface{}` field: nil,
or a Go `bool`, `float64`, `string`, `[]interface{}` or
`map[string]interface{}`. Only the text of a `string` is read by the program. -/
inductive Dynamic where
  | nil
  | bool (b : Bool)
  | float64
  | str (s : String)
  | slice
  | map
deriving DecidableEq

/-- The struct `Params`. -/
structure Params where
  Subscription : String
  Result : Dynamic

/-- The struct `ResponseMessage`. -/
structure ResponseMessage where
  JsonRPC : String
  Method : String
  Params : Params

/-- The calls of `json.Unmarshal` in `subscriber.go`, taken as parameters, one
for each type that is filled from the text of a message: the reply to a
subscription, the push frame as `ConnectWS` first decodes it, and the block
header that the second call in `ConnectWS` fills through
`response.Params.Result = &Header`. -/
structure JsonCodec where
  UnmarshalSubscriptionResponse : String → Except String SubscriptionResponse
  UnmarshalResponseMessage : String → Except String ResponseMessage
  UnmarshalBlockHeader : String → Except String BlockHeader

/-- The go-ethereum function `decodeNibble` of `hexutil`. -/
def decodeNibble (c : Char) : Option Nat :=
  if '0' ≤ c ∧ c ≤ '9' then some (c.toNat - '0'.toNat)
  else if 'A' ≤ c ∧ c ≤ 'F' then some (c.toNat - 'A'.toNat + 10)
  else if 'a' ≤ c ∧ c ≤ 'f' then some (c.toNat - 'a'.toNat + 10)
  else none

/-- The go-ethereum function `hexutil.DecodeBig`: a quantity with the prefix
`0x`, at least one digit, no leading zero, at most 64 digits. -/
def DecodeBig (input : String) : Except String Nat :=
  if input.utf8ByteSize = 0 then .error "empty hex string"
  else if !(input.data.take 2 == ['0', 'x'] || input.data.take 2 == ['0', 'X']) then
    .error "hex string without 0x prefix"
  else
    let raw := input.data.drop 2
    if raw.length = 0 then .error "hex string \"0x\""
    else if raw.length > 1 && raw.head? == some '0' then
      .error "hex number with leading zero digits"
    else if (String.mk raw).utf8ByteSize > 64 then .error "hex number > 256 bits"
    else if raw.all fun c => (decodeNibble c).isSome then
      .ok (raw.foldl (fun acc c => acc * 16 + (decodeNibble c).getD 0) 0)
    else .error "invalid hex string"

/-- What the node side of one WebSocket connection does: the error of the
dial (`none` when it connects), the errors of `NextWriter` for the two
subscription requests, and the results of the successive calls of
`ReadMessage`, each an error or the text of a message. -/
structure Wire where
  dial : Option String
  writerNewHeads : Option String
  writerPending : Option String
  reads : List (Except String String)

/-- How a call of `ConnectWS` stands after the reads of a `Wire`: it has
returned an error, it has panicked, or it waits in `ReadMessage`. -/
inductive Ended where
  | returned (err : String)
  | panicked (what : String)
  | reading
deriving DecidableEq

/-- The messages `ConnectWS` has sent on `ch`, oldest first, and how it stands. -/
structure WSRun where
  sent : List ObjMessage
  ended : Ended

/-- The function `SendMessage` of `subscriber.go` on the reads still to come:
its result and the reads left, or `none` while it waits for the reply. -/
def SendMessage (codec : JsonCodec) (writer : Option String)
    (reads : List (Except String String)) :
    Option (Except String String × List (Except String String)) :=
  match writer with
  | some err => some (.error err, reads)
  | none =>
    match reads with
    | [] => none
    | .error err :: rest => some (.error err, rest)
    | .ok message :: rest =>
      match codec.UnmarshalSubscriptionResponse message with
      | .error err => some (.error err, rest)
      | .ok resp => some (.ok resp.Result, rest)

/-- The loop `for` of `ConnectWS`, one iteration for each read. A frame whose
subscription is `subHashTransactions` has its result asserted to be a string;
every other frame is decoded as a block header. -/
def readLoop (codec : JsonCodec) (subHashTransactions : String) :
    List (Except String String) → List ObjMessage → WSRun
  | [], sent => { sent := sent, ended := .reading }
  | .error err :: _, sent => { sent := sent, ended := .returned err }
  | .ok message :: rest, sent =>
    match codec.UnmarshalResponseMessage message with
    | .error err =>
      { sent := sent, ended := .returned ("Could not decode message/parse json: " ++ err) }
    | .ok response =>
      if response.Params.Subscription == subHashTransactions then
        match response.Params.Result with
        | .str txHash =>
          readLoop codec subHashTransactions rest
            (sent ++ [{ Kind := TYPE_TXN_HASH, Hash := txHash, Number := 0 }])
        | _ =>
          { sent := sent
            ended := .panicked "interface conversion: interface is not string" }
      else
        match codec.UnmarshalBlockHeader message with
        | .error err =>
          { sent := sent
            ended := .returned ("Could not decode message/parse json: " ++ err) }
        | .ok Header =>
          match DecodeBig Header.Number with
          | .error err =>
            { sent := sent, ended := .returned ("Could not decode block number: " ++ err) }
          | .ok bgInt =>
            readLoop codec subHashTransactions rest
              (sent ++ [{ Kind := TYPE_BLOCK_HASH, Hash := Header.Hash, Number := bgInt }])

/-- The function `ConnectWS` of `subscriber.go`. The slices
`subHashHeads[:12]` and `subHashTransactions[:12]` of the log line panic on a
text shorter than 12 bytes. -/
def ConnectWS (codec : JsonCodec) (wire : Wire) : WSRun :=
  match wire.dial with
  | some err => { sent := [], ended := .returned ("ConnectWS dial: " ++ err) }
  | none =>
    match SendMessage codec wire.writerNewHeads wire.reads with
    | none => { sent := [], ended := .reading }
    | some (.error err, _) =>
      { sent := [], ended := .returned ("SendMessage: newHeads: " ++ err) }
    | some (.ok subHashHeads, reads) =>
      match SendMessage codec wire.writerPending reads with
      | none => { sent := [], ended := .reading }
      | some (.error err, _) =>
        { sent := [], ended := .returned ("SendMessage: newPendingTransactions: " ++ err) }
      | some (.ok subHashTransactions, reads) =>
        if subHashHeads.utf8ByteSize < 12 || subHashTransactions.utf8ByteSize < 12 then
          { sent := [], ended := .panicked "runtime error: slice bounds out of range" }
        else readLoop codec subHashTransactions reads []

/-- The reply of the node to the subscription `newHeads`, with the id
`0x9cef478923ff08bf67fde6c64013158d`. -/
def replyNewHeads : String :=
  "\x7b\"jsonrpc\":\"2.0\",\"id\":1,\"result\":\"0x9cef478923ff08bf67fde6c64013158d\"\x7d"

/-- The reply of the node to the subscription `newPendingTransactions`, with
the id `0xc3b33aa549fb9a60e95d21862596617c`. -/
def replyPending : String :=
  "\x7b\"jsonrpc\":\"2.0\",\"id\":2,\"result\":\"0xc3b33aa549fb9a60e95d21862596617c\"\x7d"

/-- The reply of a node that refuses the subscription: a JSON-RPC error
object and no `result`. -/
def replyRefused : String :=
  "\x7b\"jsonrpc\":\"2.0\",\"id\":1,\"error\":\x7b\"code\":-32601,\"message\":\"notifications not supported\"\x7d\x7d"

/-- A push frame for the subscription id `0xffffffffffffffffffffffffffffffff`,
which is neither of the two ids above, whose result is a block header with the
number `0x67` and the hash `0x0b`. -/
def frameUnknownHeader : String :=
  "\x7b\"jsonrpc\":\"2.0\",\"method\":\"eth_subscription\",\"params\":\x7b\"subscription\":\"0xffffffffffffffffffffffffffffffff\",\"result\":\x7b\"number\":\"0x67\",\"hash\":\"0x0b\"\x7d\x7d\x7d"

/-- A push frame for the same unknown id whose result is the text `0x1234`. -/
def frameUnknownText : String :=
  "\x7b\"jsonrpc\":\"2.0\",\"method\":\"eth_subscription\",\"params\":\x7b\"subscription\":\"0xffffffffffffffffffffffffffffffff\",\"result\":\"0x1234\"\x7d\x7d"

/-- A push frame for the pending-transactions id whose result is the number 5. -/
def framePendingNumber : String :=
  "\x7b\"jsonrpc\":\"2.0\",\"method\":\"eth_subscription\",\"params\":\x7b\"subscription\":\"0xc3b33aa549fb9a60e95d21862596617c\",\"result\":5\x7d\x7d"

/-- A stand-in for `json.Unmarshal` that knows the six texts above and
answers each as `encoding/json` does; any other text is answered with an
error. -/
def stubJson : JsonCodec where
  UnmarshalSubscriptionResponse := fun message =>
    if message = replyNewHeads then
      .ok { Id := 1, Result := "0x9cef478923ff08bf67fde6c64013158d" }
    else if message = replyPending then
      .ok { Id := 2, Result := "0xc3b33aa549fb9a60e95d21862596617c" }
    else if message = replyRefused then .ok { Id := 1, Result := "" }
    else .error "invalid character"
  UnmarshalResponseMessage := fun message =>
    if message = frameUnknownHeader then
      .ok { JsonRPC := "2.0", Method := "eth_subscription",
            Params := { Subscription := "0xffffffffffffffffffffffffffffffff", Result := .map } }
    else if message = frameUnknownText then
      .ok { JsonRPC := "2.0", Method := "eth_subscription",
            Params := { Subscription := "0xffffffffffffffffffffffffffffffff",
                        Result := .str "0x1234" } }
    else if message = framePendingNumber then
      .ok { JsonRPC := "2.0", Method := "eth_subscription",
            Params := { Subscription := "0xc3b33aa549fb9a60e95d21862596617c",
                        Result := .float64 } }
    else .error "invalid character"
  UnmarshalBlockHeader := fun message =>
    if message = frameUnknownHeader then
      .ok { ParentHash := "", Difficulty := "", Number := "0x67", GasLimit := "", GasUsed := "",
            Timestamp := "", Hash := "0x0b" }
    else if message = frameUnknownText then
      .error "json: cannot unmarshal string into Go struct field Params.Result of type main.BlockHeader"
    else .error "invalid character"

/-- A connection on which both subscriptions are accepted and `frames` are
then read. -/
def wireOf (frames : List String) : Wire :=
  { dial := none, writerNewHeads := none, writerPending := none,
    reads := .ok replyNewHeads :: .ok replyPending :: frames.map .ok }

/-! ## Lemmas on the decoder -/

theorem bigEndian_length (n v : Nat) : (bigEndian n v).length = n := by
  induction n generalizing v with
  | zero => rfl
  | succ n ih => simp [bigEndian, ih]

theorem foldl_bigEndian (n v : Nat) :
    (bigEndian n v).foldl (fun acc (b : Byte) => acc * 256 + b.val) 0 = v % 256 ^ n := by
  induction n generalizing v with
  | zero => simp [bigEndian, Nat.mod_one]
  | succ n ih =>
    simp only [bigEndian, List.foldl_append, List.foldl_cons, List.foldl_nil, ih]
    have h : ((Fin.ofNat (v % 256) : Byte)).val = v % 256 := by
      simp [Fin.ofNat]
    rw [h, pow_succ', Nat.mod_mul]
    ring

theorem SetBytes_bigEndian (v : Nat) (hv : v < 2 ^ 256) :
    SetBytes (bigEndian 32 v) = Int.ofNat v := by
  unfold SetBytes
  rw [foldl_bigEndian, Nat.mod_eq_of_lt]
  calc v < 2 ^ 256 := hv
    _ = 256 ^ 32 := by norm_num

theorem paramLoop_nil (fuel : Nat) (params : List (List Byte)) :
    paramLoop fuel [] params = params := by
  cases fuel <;> simp [paramLoop]

theorem paramLoop_word (fuel : Nat) (w rest : List Byte) (params : List (List Byte))
    (hw : w.length = 32) :
    paramLoop (fuel + 1) (w ++ rest) params = paramLoop fuel rest (params ++ [w]) := by
  have h1 : ¬ (w ++ rest).length < 32 := by simp [hw]
  have h2 : (w ++ rest).length > 0 := by simp [hw]
  have h3 : List.take 32 (w ++ rest) = w := by simp [List.take_append_eq_append_take, hw]
  have h4 : List.drop 32 (w ++ rest) = rest := by simp [List.drop_append_eq_append_drop, hw]
  simp only [paramLoop, h1, h2, h3, h4, if_true, if_false]

theorem paramLoop_short (fuel : Nat) (t : List Byte) (params : List (List Byte))
    (h0 : 0 < t.length) (h32 : t.length < 32) :
    paramLoop (fuel + 1) t params = params ++ [zeroBytes (32 - t.length), t] := by
  simp [paramLoop, h0, h32, paramLoop_nil]

theorem paramLoop_fuel_irrelevant (f1 f2 : Nat) (data : List Byte)
    (params : List (List Byte)) (h1 : data.length ≤ f1) (h2 : data.length ≤ f2) :
    paramLoop f1 data params = paramLoop f2 data params := by
  induction f1 generalizing f2 data params with
  | zero =>
    have hd : data = [] := List.length_eq_zero.mp (by omega)
    subst hd
    simp [paramLoop_nil]
  | succ f1 ih =>
    by_cases h0 : data.length = 0
    · have hd : data = [] := List.length_eq_zero.mp h0
      subst hd
      simp [paramLoop_nil]
    · obtain ⟨m, hm⟩ : ∃ m, f2 = m + 1 := ⟨f2 - 1, by omega⟩
      subst hm
      by_cases h32 : data.length < 32
      · rw [paramLoop_short f1 data params (by omega) h32,
          paramLoop_short m data params (by omega) h32]
      · have hsplit : data = data.take 32 ++ data.drop 32 := (List.take_append_drop 32 data).symm
        have hw : (data.take 32).length = 32 := by simp; omega
        have hr : (data.drop 32).length = data.length - 32 := by simp
        rw [hsplit, paramLoop_word f1 _ _ params hw, paramLoop_word m _ _ params hw]
        exact ih m _ _ (by omega) (by omega)

/-- The fuel `splitParams` gives the loop is never what ends it: any larger
amount gives the same slices. -/
theorem paramLoop_fuel (fuel : Nat) (data : List Byte) (params : List (List Byte))
    (h : data.length ≤ fuel) :
    paramLoop fuel data params = paramLoop data.length data params :=
  paramLoop_fuel_irrelevant fuel data.length data params h (Nat.le_refl _)

theorem splitParams_two (w0 w1 : List Byte) (h0 : w0.length = 32) (h1 : w1.length = 32) :
    splitParams (w0 ++ w1) = [w0, w1] := by
  unfold splitParams
  have hl : (w0 ++ w1).length = 62 + 1 + 1 := by simp [h0, h1]
  rw [hl, paramLoop_word _ _ _ _ h0]
  have hw1 : w1 = w1 ++ [] := by simp
  rw [hw1, paramLoop_word _ _ _ _ h1, paramLoop_nil]
  simp

theorem splitParams_three (w0 w1 w2 : List Byte) (h0 : w0.length = 32) (h1 : w1.length = 32)
    (h2 : w2.length = 32) : splitParams (w0 ++ w1 ++ w2) = [w0, w1, w2] := by
  unfold splitParams
  have hl : (w0 ++ w1 ++ w2).length = 93 + 1 + 1 + 1 := by simp [h0, h1, h2]
  rw [hl, List.append_assoc, paramLoop_word _ _ _ _ h0, paramLoop_word _ _ _ _ h1]
  have hw2 : w2 = w2 ++ [] := by simp
  rw [hw2, paramLoop_word _ _ _ _ h2, paramLoop_nil]
  simp

theorem BytesToAddress_word (pre : List Byte) (a : Address) (hp : pre.length = 12) :
    BytesToAddress (pre ++ a.bytes) = a := by
  have ha := a.size_eq
  have hc : cropLeft (pre ++ a.bytes) = a.bytes := by
    unfold cropLeft
    simp [ha, hp, AddressLength, List.drop_append_eq_append_drop]
  cases a with
  | mk bytes size_eq =>
    simp only [BytesToAddress, Address.mk.injEq]
    simp only at hc ha
    rw [hc, ha]
    simp [zeroBytes]

/-- The bytes `BytesToAddress` keeps of a 32-byte word are its last 20. -/
theorem BytesToAddress_bytes_word (w : List Byte) (hw : w.length = 32) :
    (BytesToAddress w).bytes = w.drop 12 := by
  have hc : cropLeft w = w.drop 12 := by
    unfold cropLeft
    simp [hw, AddressLength]
  simp [BytesToAddress, hc, hw, zeroBytes, AddressLength]

theorem GetContractDestAddress_transfer (body : List Byte) :
    GetContractDestAddress (transferAddr ++ body) =
      if (splitParams body).length != 2 then
        .error "Invalid contract transaction parameters"
      else
        .ok (BytesToAddress ((splitParams body).getD 0 []),
             SetBytes ((splitParams body).getD 1 [])) := by
  simp [GetContractDestAddress, transferAddr, transferFromAddr]

theorem GetContractDestAddress_transferFrom (body : List Byte) :
    GetContractDestAddress (transferFromAddr ++ body) =
      if (splitParams body).length != 3 then
        .error "Invalid contract transaction parameters"
      else
        .ok (BytesToAddress ((splitParams body).getD 1 []),
             SetBytes ((splitParams body).getD 2 [])) := by
  simp [GetContractDestAddress, transferAddr, transferFromAddr]

theorem GetContractDestAddress_unrecognized (data : List Byte)
    (h : data.length < 4 ∨ (data.take 4 ≠ transferAddr ∧ data.take 4 ≠ transferFromAddr)) :
    ∃ err, GetContractDestAddress data = .error err := by
  unfold GetContractDestAddress
  rcases h with h | ⟨h1, h2⟩
  · exact ⟨"Data size too short", by simp [h]⟩
  · by_cases hl : data.length < 4
    · exact ⟨"Data size too short", by simp [hl]⟩
    · refine ⟨"Could not find a valid operation", ?_⟩
      have e1 : (transferAddr != data.take 4) = true := by
        simp [bne_iff_ne]; exact fun e => h1 e.symm
      have e2 : (transferFromAddr != data.take 4) = true := by
        simp [bne_iff_ne]; exact fun e => h2 e.symm
      simp [hl, e1, e2]

/-! ## C1: the calldata of `transfer` round-trips -/

/-- C1. For every 20-byte address `a` and every `v` below `2^256`,
`GetContractDestAddress` on the 68 bytes `a9059cbb`, `a` left-padded with 12
zero bytes, `v` as 32 big-endian bytes, returns no error, the destination `a`
and the amount `v`. -/
theorem transfer_calldata_round_trip (a : Address) (v : Nat) (hv : v < 2 ^ 256) :
    (transferCalldata a v).length = 68 ∧
    GetContractDestAddress (transferCalldata a v) = .ok (a, Int.ofNat v) := by
  have hw0 : (zeroBytes 12 ++ a.bytes).length = 32 := by
    simp [zeroBytes, a.size_eq, AddressLength]
  have hw1 : (bigEndian 32 v).length = 32 := bigEndian_length 32 v
  constructor
  · simp [transferCalldata, transferAddr, hw1, zeroBytes, a.size_eq, AddressLength]
  · unfold transferCalldata
    rw [List.append_assoc, GetContractDestAddress_transfer, splitParams_two _ _ hw0 hw1]
    simp [BytesToAddress_word (zeroBytes 12) a (by simp [zeroBytes]), SetBytes_bigEndian v hv]

/-- C1 at the address `5aae…eaed` and the amount 500. -/
theorem transfer_calldata_round_trip_witness :
    (500 : Nat) < 2 ^ 256 ∧
    (transferCalldata sampleAddress 500).length = 68 ∧
    GetContractDestAddress (transferCalldata sampleAddress 500) = .ok (sampleAddress, 500) :=
  ⟨by norm_num, transfer_calldata_round_trip sampleAddress 500 (by norm_num)⟩

/-! ## C2: `transferFrom` -/

/-- C2. For every transaction with a present `to`, a recovered signer `s` and
calldata `23b872dd ++ w0 ++ w1 ++ w2` of three 32-byte words,
`ParseTransaction` returns a Tx message whose sender is `s` (not `w0`), whose
destination is the address made of the last 20 bytes of `w1`, whose amount is
`w2` read big-endian, whose contract is `tx.to`, with the given pending flag
and the hash of the transaction. -/
theorem ParseTransaction_transferFrom (lib : Geth) (tx : Transaction) (isPending : Bool)
    (c s : Address) (w0 w1 w2 : List Byte)
    (hto : tx.To = some c) (hs : GetTransactionFrom lib tx = .ok s)
    (h0 : w0.length = 32) (h1 : w1.length = 32) (h2 : w2.length = 32)
    (hd : tx.data = transferFromAddr ++ w0 ++ w1 ++ w2) :
    (BytesToAddress w1).bytes = w1.drop 12 ∧
    ParseTransaction lib (some tx) isPending =
      .ok { MessageType := NOTIFY_TYPE_TX
            AddressFrom := from2 s.Hex
            AddressTo := from2 (BytesToAddress w1).Hex
            Amount := some (SetBytes w2)
            ContractAddress := from2 c.Hex
            IsPending := isPending
            TxHash := from2 tx.hash.Hex } := by
  refine ⟨BytesToAddress_bytes_word w1 h1, ?_⟩
  have hdec : GetContractDestAddress tx.data = .ok (BytesToAddress w1, SetBytes w2) := by
    rw [hd, List.append_assoc, List.append_assoc, ← List.append_assoc w0,
      GetContractDestAddress_transferFrom, splitParams_three _ _ _ h0 h1 h2]
    simp
  simp only [ParseTransaction, hto, hs, hdec]

/-- C2 on a transaction signed by `lowAddress` that moves 500 units from the
holder `sampleAddress` to the address `…0002`. -/
theorem ParseTransaction_transferFrom_witness :
    (BytesToAddress (zeroBytes 31 ++ [2])).bytes = (zeroBytes 31 ++ [2]).drop 12 ∧
    ParseTransaction stubGeth
      (some (sampleTx (transferFromAddr ++ (zeroBytes 12 ++ sampleAddress.bytes) ++
        (zeroBytes 31 ++ [2]) ++ bigEndian 32 500) 0)) true =
      .ok { MessageType := NOTIFY_TYPE_TX
            AddressFrom := from2 lowAddress.Hex
            AddressTo := from2 (BytesToAddress (zeroBytes 31 ++ [2])).Hex
            Amount := some (SetBytes (bigEndian 32 500))
            ContractAddress := from2 sampleAddress.Hex
            IsPending := true
            TxHash := from2 sampleHash.Hex } :=
  ParseTransaction_transferFrom stubGeth _ true sampleAddress lowAddress
    (zeroBytes 12 ++ sampleAddress.bytes) (zeroBytes 31 ++ [2]) (bigEndian 32 500)
    rfl rfl (by decide) (by decide) (by decide) rfl

/-! ## C3: the fall-through to a plain transfer -/

/-- C3. For every transaction with a present `to` and a recovered signer
whose calldata is shorter than 4 bytes, or starts with neither `a9059cbb` nor
`23b872dd`, `ParseTransaction` returns a Tx message with the recovered signer
as sender, `tx.to` as destination, `tx.value` as amount and an empty contract. -/
theorem ParseTransaction_plain_transfer (lib : Geth) (tx : Transaction) (isPending : Bool)
    (c s : Address) (hto : tx.To = some c) (hs : GetTransactionFrom lib tx = .ok s)
    (hd : tx.data.length < 4 ∨
      (tx.data.take 4 ≠ transferAddr ∧ tx.data.take 4 ≠ transferFromAddr)) :
    ParseTransaction lib (some tx) isPending =
      .ok { MessageType := NOTIFY_TYPE_TX
            AddressFrom := from2 s.Hex
            AddressTo := from2 c.Hex
            Amount := some (Int.ofNat tx.value)
            ContractAddress := ""
            IsPending := isPending
            TxHash := from2 tx.hash.Hex } := by
  obtain ⟨err, herr⟩ := GetContractDestAddress_unrecognized tx.data hd
  simp only [ParseTransaction, hto, hs, herr]

/-- C3 on the calldata `deadbeef`. -/
theorem ParseTransaction_plain_transfer_witness :
    ParseTransaction stubGeth (some (sampleTx [0xde, 0xad, 0xbe, 0xef] 0)) false =
      .ok { MessageType := NOTIFY_TYPE_TX
            AddressFrom := from2 lowAddress.Hex
            AddressTo := from2 sampleAddress.Hex
            Amount := some (Int.ofNat (10 ^ 18))
            ContractAddress := ""
            IsPending := false
            TxHash := from2 sampleHash.Hex } :=
  ParseTransaction_plain_transfer stubGeth (sampleTx [0xde, 0xad, 0xbe, 0xef] 0) false
    sampleAddress lowAddress rfl rfl (Or.inr (by decide))

/-! ## C4: a recognized selector with the wrong number of parameters -/

theorem GetContractDestAddress_wrong_count (data : List Byte)
    (hd : (data.take 4 = transferAddr ∧ (splitParams (data.drop 4)).length ≠ 2) ∨
      (data.take 4 = transferFromAddr ∧ (splitParams (data.drop 4)).length ≠ 3)) :
    GetContractDestAddress data = .error "Invalid contract transaction parameters" := by
  have hsplit : data = data.take 4 ++ data.drop 4 := (List.take_append_drop 4 data).symm
  rcases hd with ⟨hsel, hn⟩ | ⟨hsel, hn⟩
  · rw [hsplit, hsel, GetContractDestAddress_transfer]
    simp [hn]
  · rw [hsplit, hsel, GetContractDestAddress_transferFrom]
    simp [hn]

/-- C4 as the claim states it fails: the calldata `a9059cbb` followed by one
32-byte word has a recognized selector and one parameter where `transfer`
takes two, `GetContractDestAddress` fails on it, and `ParseTransaction` does
not skip the transaction: it returns the Tx message of a plain transfer. -/
theorem wrong_parameter_count_not_skipped :
    (sampleTx (transferAddr ++ zeroBytes 32) 0).data.take 4 = transferAddr ∧
    (splitParams ((sampleTx (transferAddr ++ zeroBytes 32) 0).data.drop 4)).length = 1 ∧
    GetContractDestAddress (sampleTx (transferAddr ++ zeroBytes 32) 0).data =
      .error "Invalid contract transaction parameters" ∧
    ParseTransaction stubGeth (some (sampleTx (transferAddr ++ zeroBytes 32) 0)) false =
      .ok (plainTransferMessage lowAddress sampleAddress (10 ^ 18) false sampleHash) ∧
    (plainTransferMessage lowAddress sampleAddress (10 ^ 18) false sampleHash).MessageType =
      NOTIFY_TYPE_TX := by
  have h1 : (sampleTx (transferAddr ++ zeroBytes 32) 0).data.take 4 = transferAddr := by decide
  have h2 : (splitParams ((sampleTx (transferAddr ++ zeroBytes 32) 0).data.drop 4)).length = 1 := by
    decide
  have h3 := GetContractDestAddress_wrong_count (sampleTx (transferAddr ++ zeroBytes 32) 0).data
    (Or.inl ⟨h1, by rw [h2]; decide⟩)
  refine ⟨h1, h2, h3, ?_, rfl⟩
  have hto : (sampleTx (transferAddr ++ zeroBytes 32) 0).To = some sampleAddress := rfl
  have hs : GetTransactionFrom stubGeth (sampleTx (transferAddr ++ zeroBytes 32) 0) =
      .ok lowAddress := rfl
  simp only [ParseTransaction, hto, hs, h3, plainTransferMessage]
  rfl

/-- C4, amended. For every transaction with a present `to` and a recovered
signer whose calldata starts with a recognized selector but splits into the
wrong number of parameter slices (not 2 for `transfer`, not 3 for
`transferFrom`), `GetContractDestAddress` fails, and `ParseTransaction`
returns the Tx message of a plain transfer of `tx.value` to `tx.to` with an
empty contract. -/
theorem ParseTransaction_wrong_parameter_count (lib : Geth) (tx : Transaction)
    (isPending : Bool) (c s : Address)
    (hto : tx.To = some c) (hs : GetTransactionFrom lib tx = .ok s)
    (hd : (tx.data.take 4 = transferAddr ∧ (splitParams (tx.data.drop 4)).length ≠ 2) ∨
      (tx.data.take 4 = transferFromAddr ∧ (splitParams (tx.data.drop 4)).length ≠ 3)) :
    GetContractDestAddress tx.data = .error "Invalid contract transaction parameters" ∧
    ParseTransaction lib (some tx) isPending =
      .ok (plainTransferMessage s c tx.value isPending tx.hash) := by
  have herr := GetContractDestAddress_wrong_count tx.data hd
  refine ⟨herr, ?_⟩
  simp only [ParseTransaction, hto, hs, herr, plainTransferMessage]

/-- C4, amended, on `transferFrom` calldata that carries two words. -/
theorem ParseTransaction_wrong_parameter_count_witness :
    GetContractDestAddress (sampleTx (transferFromAddr ++ zeroBytes 64) 0).data =
      .error "Invalid contract transaction parameters" ∧
    ParseTransaction stubGeth (some (sampleTx (transferFromAddr ++ zeroBytes 64) 0)) true =
      .ok (plainTransferMessage lowAddress sampleAddress
        (sampleTx (transferFromAddr ++ zeroBytes 64) 0).value true
        (sampleTx (transferFromAddr ++ zeroBytes 64) 0).hash) :=
  ParseTransaction_wrong_parameter_count stubGeth (sampleTx (transferFromAddr ++ zeroBytes 64) 0)
    true sampleAddress lowAddress rfl rfl (Or.inr ⟨by decide, by decide⟩)

/-! ## C5: a final chunk shorter than a word -/

/-- What the loop does with a body that ends in a chunk of `k` bytes,
`0 < k < 32`, after one full word: the chunk becomes two slices, `32 - k` zero
bytes and then the chunk itself. -/
theorem splitParams_short_tail (w0 t : List Byte) (h0 : w0.length = 32)
    (hk : 0 < t.length) (hk32 : t.length < 32) :
    splitParams (w0 ++ t) = [w0, zeroBytes (32 - t.length), t] := by
  unfold splitParams
  obtain ⟨m, hm⟩ : ∃ m, t.length = m + 1 := ⟨t.length - 1, by omega⟩
  have hl : (w0 ++ t).length = (31 + m + 1) + 1 := by simp [h0, hm]; omega
  rw [hl, paramLoop_word _ _ _ _ h0, paramLoop_short _ _ _ hk hk32]
  simp

/-- For every `transfer` calldata made of a full first word and a tail of `k`
bytes, `0 < k < 32`, `GetContractDestAddress` counts three parameters and
fails. -/
theorem GetContractDestAddress_transfer_short_tail (w0 t : List Byte) (h0 : w0.length = 32)
    (hk : 0 < t.length) (hk32 : t.length < 32) :
    GetContractDestAddress (transferAddr ++ (w0 ++ t)) =
      .error "Invalid contract transaction parameters" := by
  rw [GetContractDestAddress_transfer, splitParams_short_tail w0 t h0 hk hk32]
  simp

/-- C5. On the calldata `a9059cbb`, one full word and the one-byte tail `01`,
the final chunk becomes two parameter slices (31 zero bytes, then `01`), not
one word `01` followed by 31 zero bytes, and the decoding fails where the
claim has it succeed with the amount `2^248`. -/
theorem short_tail_is_two_slices :
    splitParams ((zeroBytes 12 ++ sampleAddress.bytes) ++ [0x01]) =
      [zeroBytes 12 ++ sampleAddress.bytes, zeroBytes 31, [0x01]] ∧
    GetContractDestAddress (transferAddr ++ ((zeroBytes 12 ++ sampleAddress.bytes) ++ [0x01])) =
      .error "Invalid contract transaction parameters" ∧
    SetBytes ([0x01] ++ zeroBytes 31) = Int.ofNat (2 ^ 248) :=
  ⟨splitParams_short_tail _ _ (by decide) (by decide) (by decide),
   GetContractDestAddress_transfer_short_tail _ _ (by decide) (by decide) (by decide),
   by decide⟩

/-! ## C6: the amount and the text of the addresses in a decoded message -/

theorem hexEncode_length (bs : List Byte) : (hexEncode bs).length = 2 * bs.length := by
  induction bs with
  | nil => rfl
  | cons b bs ih =>
    simp only [hexEncode, List.flatMap_cons, List.length_append, List.length_cons] at ih ⊢
    simp only [hexByte, List.length_cons, List.length_nil]
    omega

theorem hexDigits_getD_mem (n : Nat) (h : n < 16) : hexDigits.getD n '0' ∈ hexDigits := by
  have : ∀ m : Fin 16, hexDigits.getD m.val '0' ∈ hexDigits := by decide
  exact this ⟨n, h⟩

theorem hexEncode_mem (bs : List Byte) (c : Char) (hc : c ∈ hexEncode bs) : c ∈ hexDigits := by
  simp only [hexEncode, List.mem_flatMap, hexByte, List.mem_cons, List.mem_singleton,
    List.not_mem_nil, or_false] at hc
  obtain ⟨b, _, rfl | rfl⟩ := hc
  · exact hexDigits_getD_mem _ (by have := b.isLt; omega)
  · exact hexDigits_getD_mem _ (Nat.mod_lt _ (by norm_num))

/-- Every lowercase digit stays a digit, and its own lowercase, when the
checksum leaves it alone or moves it up by 32. -/
theorem hexDigits_upper :
    ∀ c ∈ hexDigits, isHexDigit c = true ∧ c.toLower = c ∧
      (c.toNat > '9'.toNat → isHexDigit (Char.ofNat (c.toNat - 32)) = true ∧
        (Char.ofNat (c.toNat - 32)).toLower = c) := by
  decide

theorem checksum_pick (c : Char) (hb : Nat) (P : Char → Prop) (hc : P c)
    (hu : c.toNat > '9'.toNat → P (Char.ofNat (c.toNat - 32))) :
    P (if c.toNat > '9'.toNat && hb > 7 then Char.ofNat (c.toNat - 32) else c) := by
  split
  · rename_i hcond
    simp only [Bool.and_eq_true, decide_eq_true_eq] at hcond
    exact hu hcond.1
  · exact hc

theorem checksumChar_spec (hash : List Byte) (i : Nat) (c : Char) (hc : c ∈ hexDigits) :
    isHexDigit (checksumChar hash i c) = true ∧ (checksumChar hash i c).toLower = c := by
  obtain ⟨h1, h2, h3⟩ := hexDigits_upper c hc
  exact checksum_pick c _ (fun x => isHexDigit x = true ∧ x.toLower = c) ⟨h1, h2⟩ h3

theorem checksumHex_length (a : Address) : (checksumHex a).length = 40 := by
  simp [checksumHex, hexEncode_length, a.size_eq, AddressLength]

theorem checksumHex_getElem (a : Address) (i : Nat) (hi : i < (checksumHex a).length) :
    ∃ c ∈ hexDigits, (hexEncode a.bytes)[i]? = some c ∧
      (checksumHex a)[i] = checksumChar (Keccak256 (asciiBytes (hexEncode a.bytes))) i c := by
  have hlen : i < (hexEncode a.bytes).length := by
    simpa [checksumHex] using hi
  refine ⟨(hexEncode a.bytes)[i], hexEncode_mem _ _ (List.getElem_mem hlen), ?_, ?_⟩
  · simp [hlen]
  · simp [checksumHex, List.getD_eq_getElem?_getD, hlen]

/-- The text `Address.Hex()[2:]` of an address is 40 hexadecimal digits whose
lowercase is the plain hexadecimal text of the address. -/
theorem from2_Hex_isAddressText (a : Address) : isAddressText a (from2 a.Hex) := by
  have hdata : (from2 a.Hex).data = checksumHex a := by
    simp [from2, Address.Hex, String.data_append]
  unfold isAddressText
  rw [hdata]
  refine ⟨checksumHex_length a, ?_, ?_⟩
  · intro c hc
    obtain ⟨i, hi, rfl⟩ := List.getElem_of_mem hc
    obtain ⟨d, hd, _, he⟩ := checksumHex_getElem a i hi
    rw [he]
    exact (checksumChar_spec _ i d hd).1
  · apply List.ext_getElem
    · simp [checksumHex_length, hexEncode_length, a.size_eq, AddressLength]
    · intro i h1 h2
      have hi : i < (checksumHex a).length := by simpa using h1
      obtain ⟨d, hd, hsome, he⟩ := checksumHex_getElem a i hi
      have hd' : (hexEncode a.bytes)[i] = d := by
        have := List.getElem?_eq_getElem h2
        rw [this] at hsome
        exact Option.some.inj hsome
      simp only [List.getElem_map, he, hd']
      exact (checksumChar_spec _ i d hd).2

theorem SetBytes_nonneg (buf : List Byte) : 0 ≤ SetBytes buf := by
  unfold SetBytes
  exact Int.ofNat_nonneg _

theorem GetContractDestAddress_nonneg (data : List Byte) (dest : Address) (value : Int)
    (h : GetContractDestAddress data = .ok (dest, value)) : 0 ≤ value := by
  unfold GetContractDestAddress at h
  dsimp only at h
  split_ifs at h
  all_goals first
    | (simp only [Except.ok.injEq, Prod.mk.injEq] at h
       obtain ⟨-, rfl⟩ := h
       first | exact SetBytes_nonneg _ | exact le_refl _)

set_option maxRecDepth 100000 in
/-- C6 as the claim states it fails: the plain transfer `sampleTx` to the
address `5aaeb6053f3e94c9b9a09f33669435e7ef1beaed` decodes without error, and
the destination of the message is the checksum text
`5aAeb6053F3E94C9b9A09f33669435E7Ef1BeAed`, which is not lowercase. -/
theorem checksum_address_not_lowercase :
    ParseTransaction stubGeth (some (sampleTx [] 0)) false =
      .ok (plainTransferMessage lowAddress sampleAddress (10 ^ 18) false sampleHash) ∧
    (plainTransferMessage lowAddress sampleAddress (10 ^ 18) false sampleHash).AddressTo =
      "5aAeb6053F3E94C9b9A09f33669435E7Ef1BeAed" ∧
    isCanonicalAddress
      (plainTransferMessage lowAddress sampleAddress (10 ^ 18) false sampleHash).AddressTo =
      false := by
  have htext : from2 sampleAddress.Hex = "5aAeb6053F3E94C9b9A09f33669435E7Ef1BeAed" := by
    decide
  refine ⟨rfl, htext, ?_⟩
  show isCanonicalAddress (from2 sampleAddress.Hex) = false
  rw [htext]
  decide

/-- C6, amended. For every transaction that `ParseTransaction` decodes
without error into a Tx message, the amount is at least 0, and the sender, the
destination and, when it is not empty, the contract are each exactly 40
hexadecimal digits without the prefix `0x`, in the mixed case of
`Address.Hex`: lowercased, the text is the plain hexadecimal text of the
address (of the recovered signer for the sender, of `tx.to` for the contract). -/
theorem ParseTransaction_address_text (lib : Geth) (tx : Transaction) (isPending : Bool)
    (m : NotifyMessage) (hok : ParseTransaction lib (some tx) isPending = .ok m)
    (htx : m.MessageType = NOTIFY_TYPE_TX) :
    ∃ s c d : Address, ∃ n : Int,
      GetTransactionFrom lib tx = .ok s ∧ tx.To = some c ∧
      m.Amount = some n ∧ 0 ≤ n ∧
      isAddressText s m.AddressFrom ∧ isAddressText d m.AddressTo ∧
      (m.ContractAddress = "" ∨ isAddressText c m.ContractAddress) := by
  unfold ParseTransaction at hok
  cases hto : tx.To with
  | none =>
    simp only [hto, Except.ok.injEq] at hok
    subst hok
    exact absurd htx (by decide)
  | some c =>
    simp only [hto] at hok
    cases hs : GetTransactionFrom lib tx with
    | error e => simp [hs] at hok
    | ok s =>
      simp only [hs] at hok
      cases hdec : GetContractDestAddress tx.data with
      | error e =>
        simp only [hdec, Except.ok.injEq] at hok
        subst hok
        exact ⟨s, c, c, Int.ofNat tx.value, rfl, rfl, rfl, Int.ofNat_nonneg _,
          from2_Hex_isAddressText s, from2_Hex_isAddressText c, Or.inl rfl⟩
      | ok r =>
        obtain ⟨dest, value⟩ := r
        simp only [hdec, Except.ok.injEq] at hok
        subst hok
        have hv : 0 ≤ value := GetContractDestAddress_nonneg tx.data dest value hdec
        exact ⟨s, c, dest, value, rfl, rfl, rfl, hv,
          from2_Hex_isAddressText s, from2_Hex_isAddressText dest,
          Or.inr (from2_Hex_isAddressText c)⟩

/-- C6, amended, on the `transfer` of 500 units to the address `…01`. -/
theorem ParseTransaction_address_text_witness :
    ∃ s c d : Address, ∃ n : Int,
      GetTransactionFrom stubGeth (sampleTx (transferCalldata lowAddress 500) 0) = .ok s ∧
      (sampleTx (transferCalldata lowAddress 500) 0).To = some c ∧
      some (SetBytes (bigEndian 32 500)) = some n ∧ 0 ≤ n ∧
      isAddressText s (from2 lowAddress.Hex) ∧ isAddressText d (from2 lowAddress.Hex) ∧
      (from2 sampleAddress.Hex = "" ∨ isAddressText c (from2 sampleAddress.Hex)) :=
  ParseTransaction_address_text stubGeth (sampleTx (transferCalldata lowAddress 500) 0) false
    { MessageType := NOTIFY_TYPE_TX
      AddressFrom := from2 lowAddress.Hex
      AddressTo := from2 lowAddress.Hex
      Amount := some (SetBytes (bigEndian 32 500))
      ContractAddress := from2 sampleAddress.Hex
      IsPending := false
      TxHash := from2 sampleHash.Hex } rfl rfl

/-! ## Lemmas on `ReadBlock` and the recovery loop -/

theorem parseLoop_ok (lib : Geth) (txs : List Transaction) (acc : List NotifyMessage)
    (h : ∀ tx ∈ txs, ∃ m, ParseTransaction lib (some tx) false = .ok m) :
    parseLoop lib txs acc =
      (acc ++ txs.filterMap (fun tx => (ParseTransaction lib (some tx) false).toOption),
        none) := by
  induction txs generalizing acc with
  | nil => simp [parseLoop]
  | cons tx rest ih =>
    obtain ⟨m, hm⟩ := h tx (List.mem_cons_self _ _)
    have hrest : ∀ tx ∈ rest, ∃ m, ParseTransaction lib (some tx) false = .ok m :=
      fun t ht => h t (List.mem_cons_of_mem _ ht)
    simp [parseLoop, hm, ih _ hrest, Except.toOption]

theorem parseLoop_error (lib : Geth) (txs : List Transaction) (acc : List NotifyMessage)
    (tx : Transaction) (e : String) (hmem : tx ∈ txs)
    (herr : ParseTransaction lib (some tx) false = .error e) :
    ∃ msgs e', parseLoop lib txs acc = (msgs, some e') := by
  induction txs generalizing acc with
  | nil => exact absurd hmem (List.not_mem_nil _)
  | cons t rest ih =>
    cases ht : ParseTransaction lib (some t) false with
    | error e0 => exact ⟨acc, e0, by simp [parseLoop, ht]⟩
    | ok m =>
      have hin : tx ∈ rest := by
        rcases List.mem_cons.mp hmem with h | h
        · subst h
          rw [herr] at ht
          exact absurd ht (by simp)
        · exact h
      obtain ⟨msgs, e', h⟩ := ih (acc ++ [m]) hin
      exact ⟨msgs, e', by simp [parseLoop, ht, h]⟩

theorem ReadBlock_by_number (lib : Geth) (client : Client) (t n : Nat) (b : Block)
    (hfetch : client.BlockByNumber t (some n) = .ok b) (hparse : allParse lib b) :
    ReadBlock lib client t "" (some n) = (some b.number, blockEvents lib b, none) := by
  have hp := parseLoop_ok lib b.transactions [] hparse
  simp [ReadBlock, hfetch, hp, blockEvents]

theorem ReadBlock_by_hash (lib : Geth) (client : Client) (t : Nat) (h : String) (b : Block)
    (hh : h ≠ "") (hfetch : client.BlockByHash t (lib.HexToHash h) = .ok b)
    (hparse : allParse lib b) :
    ReadBlock lib client t h none = (some b.number, blockEvents lib b, none) := by
  have hp := parseLoop_ok lib b.transactions [] hparse
  have hne : (h != "") = true := by simp [bne_iff_ne, hh]
  simp [ReadBlock, hne, hfetch, hp, blockEvents]

theorem readBlockCall_hash (h : String) (n : Option Nat) (hh : h ≠ "") :
    readBlockCall h n = RpcCall.blockByHash h := by
  have hne : (h != "") = true := by simp [bne_iff_ne, hh]
  simp [readBlockCall, hne]

theorem setShared_append (v : Int) (a b : List (NotifyMessage × Bool)) :
    setShared v (a ++ b) = setShared v a ++ setShared v b := by
  simp [setShared]

theorem setShared_unmarked (v : Int) (l : List NotifyMessage) :
    setShared v (l.map fun m => (m, false)) = l.map fun m => (m, false) := by
  simp [setShared, List.map_map, Function.comp_def]

theorem setShared_setShared (v w : Int) (l : List (NotifyMessage × Bool)) :
    setShared v (setShared w l) = setShared v l := by
  unfold setShared
  rw [List.map_map]
  apply List.map_congr_left
  intro p _
  obtain ⟨m, b⟩ := p
  cases b <;> simp

theorem setShared_admin (v : Int) (n : Option Int) :
    setShared v [(adminMessage n, true)] = [(adminMessage (some v), true)] := by
  simp [setShared, adminMessage]

/-- The recovery loop from `last` to `number`, `d` blocks apart, when every
fetch by number succeeds and every transaction parses: `d` fetches, in
increasing order, and each block's messages followed by an admin message; once
an iteration has run, every admin message of the loop holds `number`, the
value the shared cursor ends at. -/
theorem gapFill_fill (lib : Geth) (client : Client) (blk : Nat → Block) (number : Nat)
    (hN : number < 2 ^ 64) :
    ∀ (d fuel last : Nat) (st : ListenerState) (out : List (NotifyMessage × Bool)),
      last + d = number → d < fuel →
      (∀ t n, last ≤ n → n < number → client.BlockByNumber t (some n) = .ok (blk n)) →
      (∀ n, last ≤ n → n < number → allParse lib (blk n)) →
      gapFill lib client fuel last number st out =
        some { st with
               sent := st.sent ++
                 ((if d = 0 then out else setShared (Int.ofNat number) out).map Prod.fst ++
                   (List.range' last d).flatMap (blockThenShared lib blk number))
               calls := st.calls ++
                 (List.range' last d).map fun n => RpcCall.blockByNumber (some n) } := by
  intro d
  induction d with
  | zero =>
    intro fuel last st out hd hf _ _
    obtain ⟨f, rfl⟩ : ∃ f, fuel = f + 1 := ⟨fuel - 1, by omega⟩
    have : last = number := by omega
    subst this
    simp [gapFill]
  | succ d ih =>
    intro fuel last st out hd hf hfetch hparse
    obtain ⟨f, rfl⟩ : ∃ f, fuel = f + 1 := ⟨fuel - 1, by omega⟩
    have hne : last ≠ number := by omega
    have hrb := ReadBlock_by_number lib client st.calls.length last (blk last)
      (hfetch _ last (Nat.le_refl _) (by omega)) (hparse last (Nat.le_refl _) (by omega))
    have hnext : (last % 2 ^ 64 + 1) % 2 ^ 64 = last + 1 := by
      rw [Nat.mod_eq_of_lt (by omega), Nat.mod_eq_of_lt (by omega)]
    have hstep := ih f (last + 1)
      { last_id := st.last_id
        sent := st.sent
        calls := st.calls ++ [readBlockCall "" (some last)] }
      (setShared (Int.ofNat (last + 1))
        (out ++ (blockEvents lib (blk last)).map (fun txn => (txn, false)) ++
          [(adminMessage (some (Int.ofNat last)), true)]))
      (by omega) (by omega)
      (fun t n h1 h2 => hfetch t n (by omega) h2) (fun n h1 h2 => hparse n (by omega) h2)
    have hsettle : (if d = 0 then
          setShared (Int.ofNat (last + 1))
            (out ++ (blockEvents lib (blk last)).map (fun txn => (txn, false)) ++
              [(adminMessage (some (Int.ofNat last)), true)])
        else
          setShared (Int.ofNat number) (setShared (Int.ofNat (last + 1))
            (out ++ (blockEvents lib (blk last)).map (fun txn => (txn, false)) ++
              [(adminMessage (some (Int.ofNat last)), true)]))) =
        setShared (Int.ofNat number) out ++
          (blockEvents lib (blk last)).map (fun txn => (txn, false)) ++
          [(adminMessage (some (Int.ofNat number)), true)] := by
      by_cases hd0 : d = 0
      · have hl : last + 1 = number := by omega
        simp only [hd0, if_true, hl, setShared_append, setShared_unmarked, setShared_admin]
      · simp only [hd0, if_false, setShared_setShared, setShared_append, setShared_unmarked,
          setShared_admin]
    simp only [gapFill, hne, ne_eq, not_false_eq_true, if_true, hrb, hnext]
    rw [hstep, hsettle]
    simp [List.range'_succ, blockThenShared, readBlockCall, List.append_assoc,
      Function.comp_def]

/-- The recovery loop of the Listener under the same assumptions. -/
theorem recoveryLoop_fill (lib : Geth) (client : Client) (blk : Nat → Block) (number : Nat)
    (hN : number < 2 ^ 64) (d fuel last : Nat) (st : ListenerState)
    (hd : last + d = number) (hf : d < fuel)
    (hfetch : ∀ t n, last ≤ n → n < number → client.BlockByNumber t (some n) = .ok (blk n))
    (hparse : ∀ n, last ≤ n → n < number → allParse lib (blk n)) :
    recoveryLoop lib client fuel last number st =
      some { st with
             sent := st.sent ++ (List.range' last d).flatMap (blockThenShared lib blk number)
             calls := st.calls ++
               (List.range' last d).map fun n => RpcCall.blockByNumber (some n) } := by
  unfold recoveryLoop
  rw [gapFill_fill lib client blk number hN d fuel last st [] hd hf hfetch hparse]
  simp [setShared]

/-! ## C7: the order of the recovery -/

theorem gapFill_never_reaches (fuel last : Nat) (st : ListenerState)
    (out : List (NotifyMessage × Bool)) (hlast : last < 2 ^ 64) :
    gapFill stubGeth sampleClient fuel last (2 ^ 64) st out = none := by
  induction fuel generalizing last st out with
  | zero => rfl
  | succ f ih =>
    have hne : last ≠ 2 ^ 64 := by omega
    have hparse : allParse stubGeth (sampleBlock last) := by
      intro tx htx
      simp only [sampleBlock, List.mem_singleton] at htx
      subst htx
      exact ⟨_, rfl⟩
    have hrb := ReadBlock_by_number stubGeth sampleClient st.calls.length last
      (sampleBlock last) rfl hparse
    simp only [gapFill, hne, ne_eq, not_false_eq_true, if_true, hrb]
    exact ih _ _ _ (Nat.mod_lt _ (by norm_num))

/-- With a successful node and a 64-bit cursor below `2^64`, the recovery
loop started at `last` never reaches the header number `2^64`. -/
theorem recoveryLoop_never_reaches (fuel last : Nat) (st : ListenerState)
    (hlast : last < 2 ^ 64) :
    recoveryLoop stubGeth sampleClient fuel last (2 ^ 64) st = none :=
  gapFill_never_reaches fuel last st [] hlast

/-- A header number that a 64-bit cursor cannot hold: with the checkpoint
`K = 2^64 - 2` and a first header of number `N = 2^64 > K`, on a node where
every fetch succeeds and every transaction parses, the cursor of the recovery
loop wraps from `2^64 - 1` to 0 and never equals `N`: for no amount of fuel
does the Listener get past the gap-fill. -/
theorem recovery_never_ends_past_uint64 :
    ¬ ∃ fuel st, Listener stubGeth sampleClient fuel
        [{ Kind := TYPE_BLOCK_HASH, Hash := "0x10000000000000000", Number := 2 ^ 64 }]
        (2 ^ 64 - 2) = some st := by
  rintro ⟨fuel, st, h⟩
  have hloop := recoveryLoop_never_reaches fuel ((2 ^ 64 - 2 + 1) % 2 ^ 64)
    { last_id := 2 ^ 64 - 2, sent := [], calls := [] } (Nat.mod_lt _ (by norm_num))
  have hid : (2 ^ 64 - 2 : Nat) ≠ 0 := by norm_num
  simp only [Listener, listenerRun, listenerStep, TYPE_BLOCK_HASH, if_true, hid, ne_eq,
    not_false_eq_true, hloop, Option.map_none'] at h
  exact absurd h (by simp)

/-- The recovery as the code runs it. For every checkpoint `K > 0` and first
header with a non-empty hash and a number `N`, `K < N < 2^64`, on a node where
every fetch succeeds and every transaction parses, the Listener (given at
least `N - K` units of fuel) fetches the blocks `K+1, …, N-1` by number in
increasing order and then block `N` by hash, and sends the messages of the
blocks in that order, each block followed by an admin message; every one of
these admin messages holds `N` when the Listener is done with the header. -/
theorem Listener_recovery_shared_cursor (lib : Geth) (client : Client) (blk : Nat → Block)
    (K N fuel : Nat) (h : String)
    (hK : 0 < K) (hKN : K < N) (hN : N < 2 ^ 64) (hh : h ≠ "") (hfuel : N - K ≤ fuel)
    (hnum : ∀ t n, K < n → n < N → client.BlockByNumber t (some n) = .ok (blk n))
    (hhash : ∀ t, client.BlockByHash t (lib.HexToHash h) = .ok (blk N))
    (hnumber : (blk N).number = N)
    (hparse : ∀ n, K < n → n ≤ N → allParse lib (blk n)) :
    Listener lib client fuel [{ Kind := TYPE_BLOCK_HASH, Hash := h, Number := N }] K =
      some { last_id := 0
             sent := (List.range' (K + 1) (N - K)).flatMap (blockThenShared lib blk N)
             calls := ((List.range' (K + 1) (N - K - 1)).map
               fun n => RpcCall.blockByNumber (some n)) ++ [RpcCall.blockByHash h] } := by
  have hloop := recoveryLoop_fill lib client blk N hN (N - K - 1) fuel (K + 1)
    { last_id := K, sent := [], calls := [] } (by omega) (by omega)
    (fun t n h1 h2 => hnum t n (by omega) h2) (fun n h1 h2 => hparse n (by omega) (by omega))
  have hK1 : (K + 1) % 2 ^ 64 = K + 1 := Nat.mod_eq_of_lt (by omega)
  have hid : K ≠ 0 := by omega
  have hrb := fun t => ReadBlock_by_hash lib client t h (blk N) hh (hhash t)
    (hparse N hKN (Nat.le_refl _))
  have hsplit : N - K = (N - K - 1) + 1 := by omega
  have hlast : K + 1 + (N - K - 1) = N := by omega
  simp only [Listener, listenerRun, listenerStep, if_true, hid, ne_eq,
    not_false_eq_true, hK1, hloop, Option.map_some', hrb, readBlockCall_hash h none hh, hnumber]
  rw [hsplit, List.range'_concat]
  simp [blockThenShared, hlast, hsplit.symm]

/-- C7. Started from the checkpoint 100 with a first header of number 103
(hash text `0x67`) on the toy chain, the Listener fetches blocks 101 and 102
by number and 103 by hash and sends their transfers in that order, each
followed by an admin message; the admin messages of blocks 101 and 102 hold
the pointer `last`, which the loop has moved on to 103, so the three admin
messages read 103, 103, 103 where the claim has `Admin{101}`, `Admin{102}`,
`Admin{103}`. -/
theorem gap_fill_admins_share_cursor :
    Listener stubGeth sampleClient 3
        [{ Kind := TYPE_BLOCK_HASH, Hash := "0x67", Number := 103 }] 100 =
      some { last_id := 0
             sent := [plainTransferMessage lowAddress sampleAddress 101 false sampleHash,
                      adminMessage (some 103),
                      plainTransferMessage lowAddress sampleAddress 102 false sampleHash,
                      adminMessage (some 103),
                      plainTransferMessage lowAddress sampleAddress 103 false sampleHash,
                      adminMessage (some 103)]
             calls := [RpcCall.blockByNumber (some 101), RpcCall.blockByNumber (some 102),
                       RpcCall.blockByHash "0x67"] } ∧
    adminMessage (some 103) ≠ adminMessage (some 101) ∧
    adminMessage (some 103) ≠ adminMessage (some 102) :=
  ⟨rfl, by decide, by decide⟩

/-! ## C8: no gap-fill after the first header -/

/-- Once a block header has been handled, `last_id` is 0. -/
theorem listenerStep_header_clears_cursor (lib : Geth) (client : Client) (fuel : Nat)
    (st st1 : ListenerState) (m : ObjMessage) (hm : m.Kind = TYPE_BLOCK_HASH)
    (h : listenerStep lib client fuel st m = some st1) : st1.last_id = 0 := by
  unfold listenerStep at h
  simp only [hm, if_true] at h
  by_cases hid : st.last_id = 0
  · simp only [hid, ne_eq, not_true_eq_false, if_false] at h
    split at h <;> simp only [Option.some.injEq] at h <;> subst h <;> rfl
  · simp only [hid, ne_eq, not_false_eq_true, if_true] at h
    revert h
    generalize recoveryLoop lib client fuel _ m.Number st = r
    intro h
    cases r with
    | none => simp at h
    | some s =>
      simp only [Option.map_some'] at h
      split at h <;> simp only [Option.some.injEq] at h <;> subst h <;> rfl

/-- A block header handled with `last_id = 0`: one fetch, by hash, and the
messages of that block followed by its admin message. -/
theorem listenerStep_live (lib : Geth) (client : Client) (fuel : Nat) (st : ListenerState)
    (m : ObjMessage) (b : Block) (hm : m.Kind = TYPE_BLOCK_HASH) (hlive : st.last_id = 0)
    (hh : m.Hash ≠ "")
    (hfetch : client.BlockByHash st.calls.length (lib.HexToHash m.Hash) = .ok b)
    (hparse : allParse lib b) :
    listenerStep lib client fuel st m =
      some { last_id := 0
             sent := st.sent ++ blockEvents lib b ++ [adminMessage (some (Int.ofNat b.number))]
             calls := st.calls ++ [RpcCall.blockByHash m.Hash] } := by
  have hrb := ReadBlock_by_hash lib client st.calls.length m.Hash b hh hfetch hparse
  simp only [listenerStep, hm, if_true, hlive, ne_eq, not_true_eq_false, if_false, hrb,
    readBlockCall_hash m.Hash none hh, Option.map_some']

/-- C8 as the claim states it fails: on the toy chain, started from the
checkpoint 4, the Listener receives the header of block 5 and then, as after a
reconnect, the header of block 8. It fetches the two blocks by hash and
nothing else, and sends the transfer and the admin message of block 5 and then
those of block 8: blocks 6 and 7 are neither fetched nor announced. -/
theorem no_gap_fill_after_first_header :
    Listener stubGeth sampleClient 1
        [{ Kind := TYPE_BLOCK_HASH, Hash := "0x05", Number := 5 },
         { Kind := TYPE_BLOCK_HASH, Hash := "0x08", Number := 8 }] 4 =
      some { last_id := 0
             sent := [plainTransferMessage lowAddress sampleAddress 5 false sampleHash,
                      adminMessage (some 5),
                      plainTransferMessage lowAddress sampleAddress 8 false sampleHash,
                      adminMessage (some 8)]
             calls := [RpcCall.blockByHash "0x05", RpcCall.blockByHash "0x08"] } := by
  rfl

/-- C8, amended. If the Listener has handled a block header and the next
header it receives has a non-empty hash, whatever its number, then, when the
fetch by hash succeeds and every transaction of the block parses, the
Listener issues that one fetch and no fetch by number, and sends the messages
of that block followed by its admin message: the blocks between the two
headers are not fetched and nothing is sent for them. -/
theorem Listener_second_header_is_live (lib : Geth) (client : Client) (fuel : Nat)
    (st st1 : ListenerState) (m1 m2 : ObjMessage) (b : Block)
    (hm1 : m1.Kind = TYPE_BLOCK_HASH) (h1 : listenerStep lib client fuel st m1 = some st1)
    (hm2 : m2.Kind = TYPE_BLOCK_HASH) (hh : m2.Hash ≠ "")
    (hfetch : client.BlockByHash st1.calls.length (lib.HexToHash m2.Hash) = .ok b)
    (hparse : allParse lib b) :
    listenerRun lib client fuel [m1, m2] st =
      some { last_id := 0
             sent := st1.sent ++ blockEvents lib b ++ [adminMessage (some (Int.ofNat b.number))]
             calls := st1.calls ++ [RpcCall.blockByHash m2.Hash] } := by
  have hlive := listenerStep_header_clears_cursor lib client fuel st st1 m1 hm1 h1
  have h2 := listenerStep_live lib client fuel st1 m2 b hm2 hlive hh hfetch hparse
  simp only [listenerRun, h1, h2]

/-- C8, amended, on the toy chain: after the header of block 5, the header of
block 8 brings one fetch by hash and the messages of block 8 alone. -/
theorem Listener_second_header_is_live_witness :
    listenerRun stubGeth sampleClient 1
        [{ Kind := TYPE_BLOCK_HASH, Hash := "0x05", Number := 5 },
         { Kind := TYPE_BLOCK_HASH, Hash := "0x08", Number := 8 }]
        { last_id := 4, sent := [], calls := [] } =
      some { last_id := 0
             sent := [plainTransferMessage lowAddress sampleAddress 5 false sampleHash,
                      adminMessage (some 5)] ++ blockEvents stubGeth (sampleBlock 8) ++
                     [adminMessage (some (Int.ofNat (sampleBlock 8).number))]
             calls := [RpcCall.blockByHash "0x05"] ++ [RpcCall.blockByHash "0x08"] } :=
  Listener_second_header_is_live stubGeth sampleClient 1
    { last_id := 4, sent := [], calls := [] }
    { last_id := 0
      sent := [plainTransferMessage lowAddress sampleAddress 5 false sampleHash,
               adminMessage (some 5)]
      calls := [RpcCall.blockByHash "0x05"] }
    { Kind := TYPE_BLOCK_HASH, Hash := "0x05", Number := 5 }
    { Kind := TYPE_BLOCK_HASH, Hash := "0x08", Number := 8 }
    (sampleBlock 8) rfl rfl rfl (by decide) rfl
    (fun tx htx => by
      simp only [sampleBlock, List.mem_singleton] at htx
      subst htx
      exact ⟨_, rfl⟩)

/-! ## C10: a transaction whose signature does not recover -/

/-- C10 as the claim states it fails: the block behind the header `0x09` holds
a transfer of 1 wei, a transaction whose signature does not recover, and a
transfer of 3 wei. The two transfers parse, yet the Listener sends nothing for
the block: neither their messages nor the admin message. -/
theorem failed_recovery_drops_whole_block :
    ParseTransaction stubGeth (some (transferOf 1)) false =
      .ok (plainTransferMessage lowAddress sampleAddress 1 false sampleHash) ∧
    GetTransactionFrom stubGeth unsignedTx = .error "invalid transaction v, r, s values" ∧
    ParseTransaction stubGeth (some (transferOf 3)) false =
      .ok (plainTransferMessage lowAddress sampleAddress 3 false sampleHash) ∧
    Listener stubGeth faultyClient 1
        [{ Kind := TYPE_BLOCK_HASH, Hash := "0x09", Number := 9 }] 0 =
      some { last_id := 0, sent := [], calls := [RpcCall.blockByHash "0x09"] } :=
  ⟨rfl, rfl, rfl, rfl⟩

/-- C10, amended. For every block fetched by hash for a header handled outside
the recovery (`last_id = 0`) in which the signature recovery fails for one
transaction with a present `to`, the Listener sends nothing for the block,
neither a message of any of its transactions nor its admin message, and goes
on to the next message. -/
theorem Listener_drops_block_on_failed_recovery (lib : Geth) (client : Client) (fuel : Nat)
    (st : ListenerState) (m : ObjMessage) (b : Block) (tx : Transaction) (c : Address)
    (e : String) (hm : m.Kind = TYPE_BLOCK_HASH) (hlive : st.last_id = 0) (hh : m.Hash ≠ "")
    (hfetch : client.BlockByHash st.calls.length (lib.HexToHash m.Hash) = .ok b)
    (htx : tx ∈ b.transactions) (hto : tx.To = some c)
    (hsig : GetTransactionFrom lib tx = .error e) :
    ParseTransaction lib (some tx) false = .error e ∧
    listenerStep lib client fuel st m =
      some { last_id := 0, sent := st.sent, calls := st.calls ++ [RpcCall.blockByHash m.Hash] } := by
  have hperr : ParseTransaction lib (some tx) false = .error e := by
    simp only [ParseTransaction, hto, hsig]
  refine ⟨hperr, ?_⟩
  obtain ⟨msgs, e', hloop⟩ := parseLoop_error lib b.transactions [] tx e htx hperr
  have hne : (m.Hash != "") = true := by simp [bne_iff_ne, hh]
  have hrb : ReadBlock lib client st.calls.length m.Hash none =
      (some b.number, msgs, some e') := by
    simp [ReadBlock, hne, hfetch, hloop]
  simp only [listenerStep, hm, if_true, hlive, ne_eq, not_true_eq_false, if_false, hrb,
    readBlockCall_hash m.Hash none hh]

/-- C10, amended, on the block of three transactions of `faultyClient`. -/
theorem Listener_drops_block_on_failed_recovery_witness :
    ParseTransaction stubGeth (some unsignedTx) false =
      .error "invalid transaction v, r, s values" ∧
    listenerStep stubGeth faultyClient 1 { last_id := 0, sent := [], calls := [] }
        { Kind := TYPE_BLOCK_HASH, Hash := "0x09", Number := 9 } =
      some { last_id := 0, sent := [], calls := [] ++ [RpcCall.blockByHash "0x09"] } :=
  Listener_drops_block_on_failed_recovery stubGeth faultyClient 1
    { last_id := 0, sent := [], calls := [] }
    { Kind := TYPE_BLOCK_HASH, Hash := "0x09", Number := 9 }
    { number := 9, transactions := [transferOf 1, unsignedTx, transferOf 3] }
    unsignedTx sampleAddress "invalid transaction v, r, s values"
    rfl rfl (by decide) rfl (by simp) rfl rfl

/-! ## C9: the checkpoint and the rows of a block -/

theorem notifierStep_frame (db : DB) (m : NotifyMessage) (f : StoreFaults) :
    (notifierStep db m f).eth_keys = db.eth_keys ∧
    db.next_id ≤ (notifierStep db m f).next_id ∧
    ∀ row ∈ db.notifications, row ∈ (notifierStep db m f).notifications := by
  unfold notifierStep
  split_ifs
  · exact ⟨rfl, Nat.le_refl _, fun _ h => h⟩
  · unfold SetSetting
    cases f.setSetting with
    | some e => exact ⟨rfl, Nat.le_refl _, fun _ h => h⟩
    | none =>
      dsimp only
      split_ifs <;> exact ⟨rfl, Nat.le_refl _, fun _ h => h⟩
  · unfold IsAddressKnown InsertNotification
    cases f.isAddressKnown with
    | some e => exact ⟨rfl, Nat.le_refl _, fun _ h => h⟩
    | none =>
      dsimp only
      split_ifs
      · exact ⟨rfl, Nat.le_refl _, fun _ h => h⟩
      · cases f.insertNotification with
        | some e => exact ⟨rfl, Nat.le_refl _, fun _ h => h⟩
        | none =>
          exact ⟨rfl, Nat.le_succ _, fun _ h => List.mem_append_left _ h⟩

theorem Notifier_frame (db : DB) (events : List (NotifyMessage × StoreFaults)) :
    (Notifier db events).eth_keys = db.eth_keys ∧
    db.next_id ≤ (Notifier db events).next_id ∧
    ∀ row ∈ db.notifications, row ∈ (Notifier db events).notifications := by
  induction events generalizing db with
  | nil => exact ⟨rfl, Nat.le_refl _, fun _ h => h⟩
  | cons ev rest ih =>
    obtain ⟨m, f⟩ := ev
    obtain ⟨h1, h2, h3⟩ := notifierStep_frame db m f
    obtain ⟨k1, k2, k3⟩ := ih (notifierStep db m f)
    exact ⟨by simp only [Notifier, k1, h1], by simp only [Notifier]; omega,
      fun row h => by simp only [Notifier]; exact k3 row (h3 row h)⟩

theorem Notifier_append (db : DB) (xs ys : List (NotifyMessage × StoreFaults)) :
    Notifier db (xs ++ ys) = Notifier (Notifier db xs) ys := by
  induction xs generalizing db with
  | nil => rfl
  | cons ev rest ih =>
    obtain ⟨m, f⟩ := ev
    simp only [List.cons_append, Notifier]
    exact ih _

/-- C9 as the claim states it fails: the Tx message of block 7 goes to a known
address, the store refuses its insert, and the admin message of block 7 that
follows is stored. After processing, `last_block` is 7 and the table of
notifications is empty. -/
theorem checkpoint_passes_unpersisted_tx :
    IsAddressKnown none sampleDB sampleTxMessage.AddressTo = .ok true ∧
    GetSetting none
      (Notifier sampleDB [(sampleTxMessage, insertFails), (adminMessage (some 7), noFaults)])
      "last_block" = .ok "7" ∧
    (Notifier sampleDB
      [(sampleTxMessage, insertFails), (adminMessage (some 7), noFaults)]).notifications = [] :=
  ⟨rfl, rfl, rfl⟩

/-- C9, amended. For every sequence of events processed by the Notifier that
holds a Tx event addressed to a known address, before the admin message of its
block or anywhere else, and for every outcome of the store operations in which
the lookup and the insert issued for that event succeed, a notification row
carrying that event has been inserted when the processing ends. -/
theorem Notifier_persists_tx (db : DB) (pre post : List (NotifyMessage × StoreFaults))
    (tx : NotifyMessage) (f : StoreFaults) (htx : tx.MessageType = NOTIFY_TYPE_TX)
    (hknown : IsAddressKnown none db tx.AddressTo = .ok true)
    (hk : f.isAddressKnown = none) (hi : f.insertNotification = none) :
    ∃ row ∈ (Notifier db (pre ++ [(tx, f)] ++ post)).notifications,
      carries row tx ∧ db.next_id ≤ row.id := by
  obtain ⟨hkeys, hid, _⟩ := Notifier_frame db pre
  have hknown1 : IsAddressKnown none (Notifier db pre) tx.AddressTo = .ok true := by
    simpa [IsAddressKnown, hkeys] using hknown
  have hstep : notifierStep (Notifier db pre) tx f =
      { Notifier db pre with
        notifications := (Notifier db pre).notifications ++
          [{ id := (Notifier db pre).next_id, address_from := tx.AddressFrom,
             address_to := tx.AddressTo, address_contract := tx.ContractAddress,
             amount := Text10 tx.Amount, is_pending := tx.IsPending, tx_hash := tx.TxHash }]
        next_id := (Notifier db pre).next_id + 1 } := by
    have h0 : ¬ tx.MessageType = NOTIFY_TYPE_NONE := by rw [htx]; decide
    have h2 : ¬ tx.MessageType = NOTIFY_TYPE_ADMIN := by rw [htx]; decide
    simp only [notifierStep, h0, h2, if_false, hk, hknown1, hi, InsertNotification]
    simp
  obtain ⟨_, _, hkeep⟩ := Notifier_frame (notifierStep (Notifier db pre) tx f) post
  refine ⟨{ id := (Notifier db pre).next_id, address_from := tx.AddressFrom,
            address_to := tx.AddressTo, address_contract := tx.ContractAddress,
            amount := Text10 tx.Amount, is_pending := tx.IsPending, tx_hash := tx.TxHash },
    ?_, ⟨rfl, rfl, rfl, rfl, rfl, rfl⟩, hid⟩
  rw [Notifier_append, Notifier_append]
  apply hkeep
  simp only [Notifier, hstep]
  exact List.mem_append_right _ (List.mem_singleton.mpr rfl)

/-- C9, amended, on the Tx message of block 7 followed by `Admin{7}`, all
store operations succeeding. -/
theorem Notifier_persists_tx_witness :
    ∃ row ∈ (Notifier sampleDB
        ([] ++ [(sampleTxMessage, noFaults)] ++ [(adminMessage (some 7), noFaults)])).notifications,
      carries row sampleTxMessage ∧ sampleDB.next_id ≤ row.id :=
  Notifier_persists_tx sampleDB [] [(adminMessage (some 7), noFaults)] sampleTxMessage noFaults
    rfl rfl rfl rfl

/-! ## Lemmas on the text of addresses and amounts in the store -/

theorem toLower_idem (c : Char) : c.toLower.toLower = c.toLower := by
  by_cases h : c.toNat ≥ 65 ∧ c.toNat ≤ 90
  · have hc : c = Char.ofNat c.toNat := (Char.ofNat_toNat c).symm
    obtain ⟨h1, h2⟩ := h
    generalize c.toNat = k at hc h1 h2
    subst hc
    interval_cases k <;> rfl
  · have h1 : c.toLower = c := by
      simp only [Char.toLower, h, if_false]
    rw [h1, h1]

theorem sqlLower_idem (s : String) : sqlLower (sqlLower s) = sqlLower s := by
  simp [sqlLower, List.map_map, Function.comp_def, toLower_idem]

theorem digitChar_value (k : Nat) (hk : k < 10) :
    (Nat.digitChar k).isDigit = true ∧ (Nat.digitChar k).toNat - '0'.toNat = k := by
  have : ∀ j : Fin 10, (Nat.digitChar j.val).isDigit = true ∧
      (Nat.digitChar j.val).toNat - '0'.toNat = j.val := by decide
  exact this ⟨k, hk⟩

theorem foldl_decimal (l : List Char) (a : Nat) :
    l.foldl (fun acc c => acc * 10 + (c.toNat - '0'.toNat)) a =
      a * 10 ^ l.length + l.foldl (fun acc c => acc * 10 + (c.toNat - '0'.toNat)) 0 := by
  induction l generalizing a with
  | nil => simp
  | cons c l ih =>
    simp only [List.foldl_cons, List.length_cons]
    rw [ih (a * 10 + _), ih (0 * 10 + _)]
    ring

theorem toDigitsCore_decimal (fuel n : Nat) (ds : List Char) (h : n < fuel)
    (hds : ∀ c ∈ ds, c.isDigit = true) :
    (∀ c ∈ Nat.toDigitsCore 10 fuel n ds, c.isDigit = true) ∧
    (Nat.toDigitsCore 10 fuel n ds).foldl (fun acc c => acc * 10 + (c.toNat - '0'.toNat)) 0 =
      n * 10 ^ ds.length + ds.foldl (fun acc c => acc * 10 + (c.toNat - '0'.toNat)) 0 := by
  induction fuel generalizing n ds with
  | zero => omega
  | succ fuel ih =>
    obtain ⟨hd, hv⟩ := digitChar_value (n % 10) (Nat.mod_lt _ (by norm_num))
    have hds' : ∀ c ∈ Nat.digitChar (n % 10) :: ds, c.isDigit = true := by
      intro c hc
      rcases List.mem_cons.mp hc with rfl | hc
      · exact hd
      · exact hds c hc
    have hcons : (Nat.digitChar (n % 10) :: ds).foldl
        (fun acc c => acc * 10 + (c.toNat - '0'.toNat)) 0 =
        n % 10 * 10 ^ ds.length + ds.foldl (fun acc c => acc * 10 + (c.toNat - '0'.toNat)) 0 := by
      rw [List.foldl_cons, foldl_decimal, hv]
      simp
    simp only [Nat.toDigitsCore]
    by_cases h0 : n / 10 = 0
    · simp only [h0, if_true]
      refine ⟨hds', ?_⟩
      rw [hcons]
      have : n % 10 = n := Nat.mod_eq_of_lt (by omega)
      rw [this]
    · simp only [h0, if_false]
      obtain ⟨h1, h2⟩ := ih (n / 10) (Nat.digitChar (n % 10) :: ds) (by omega) hds'
      refine ⟨h1, ?_⟩
      rw [h2, hcons, List.length_cons, pow_succ]
      have e : n * 10 ^ ds.length = (10 * (n / 10) + n % 10) * 10 ^ ds.length := by
        rw [Nat.div_add_mod n 10]
      rw [e]
      ring

theorem toDigitsCore_ne_nil (fuel n : Nat) (ds : List Char) (h : ds ≠ [] ∨ 0 < fuel) :
    Nat.toDigitsCore 10 fuel n ds ≠ [] := by
  induction fuel generalizing n ds with
  | zero =>
    rcases h with h | h
    · simpa [Nat.toDigitsCore] using h
    · omega
  | succ fuel ih =>
    simp only [Nat.toDigitsCore]
    split
    · simp
    · exact ih _ _ (Or.inl (by simp))

/-- The decimal text of a natural number is made of digits and spells it. -/
theorem repr_decimal (n : Nat) :
    (Nat.repr n).data.all Char.isDigit = true ∧ (Nat.repr n).data ≠ [] ∧
      decimalValue (Nat.repr n) = n := by
  obtain ⟨h1, h2⟩ := toDigitsCore_decimal (n + 1) n [] (Nat.lt_succ_self n) (by simp)
  refine ⟨?_, ?_, ?_⟩
  · simpa [Nat.repr, Nat.toDigits, List.all_eq_true] using h1
  · simpa [Nat.repr, Nat.toDigits, List.asString] using
      toDigitsCore_ne_nil (n + 1) n [] (Or.inr (Nat.succ_pos n))
  · simpa [Nat.repr, Nat.toDigits, decimalValue] using h2

theorem IsAddressKnown_none (db : DB) (address : String) :
    IsAddressKnown none db address =
      .ok (db.eth_keys.any fun key => sqlEq key.1 (sqlLower address)) := rfl

theorem IsAddressKnown_iff_registered (db : DB) (address : String) :
    IsAddressKnown none db address = .ok true ↔ registered db address := by
  simp only [IsAddressKnown, Except.ok.injEq, List.any_eq_true, sqlEq, sqlLower_idem,
    beq_iff_eq, registered]

/-! ## C12: the filter of the Notifier -/

/-- C12. For every Tx message the Notifier, when the store operations
succeed, inserts a notification row if and only if the destination is a
registered address; the row carries the sender, destination, contract,
pending flag and hash of the message and its amount as decimal text; whatever
the store answers, at most that row is added and the settings, `last_block`
among them, stay as they are. -/
theorem Notifier_filter (db : DB) (m : NotifyMessage) (htx : m.MessageType = NOTIFY_TYPE_TX) :
    (registered db m.AddressTo →
      (notifierStep db m noFaults).notifications = db.notifications ++ [rowOf db.next_id m]) ∧
    (¬ registered db m.AddressTo →
      (notifierStep db m noFaults).notifications = db.notifications) ∧
    (∀ f : StoreFaults, (notifierStep db m f).settings = db.settings ∧
      ((notifierStep db m f).notifications = db.notifications ∨
        (registered db m.AddressTo ∧
          (notifierStep db m f).notifications = db.notifications ++ [rowOf db.next_id m]))) ∧
    (rowOf db.next_id m).address_from = m.AddressFrom ∧
    (rowOf db.next_id m).address_to = m.AddressTo ∧
    (rowOf db.next_id m).address_contract = m.ContractAddress ∧
    (rowOf db.next_id m).is_pending = m.IsPending ∧
    (rowOf db.next_id m).tx_hash = m.TxHash ∧
    (∀ a : Nat, m.Amount = some (Int.ofNat a) →
      (rowOf db.next_id m).amount = Nat.repr a ∧
      (Nat.repr a).data.all Char.isDigit = true ∧ decimalValue (Nat.repr a) = a) := by
  have h0 : ¬ m.MessageType = NOTIFY_TYPE_NONE := by rw [htx]; decide
  have h2 : ¬ m.MessageType = NOTIFY_TYPE_ADMIN := by rw [htx]; decide
  refine ⟨?_, ?_, ?_, rfl, rfl, rfl, rfl, rfl, ?_⟩
  · intro hreg
    have hk := (IsAddressKnown_iff_registered db m.AddressTo).mpr hreg
    simp [notifierStep, h0, h2, noFaults, hk, InsertNotification, rowOf]
  · intro hreg
    have hk : IsAddressKnown none db m.AddressTo = .ok false := by
      rw [IsAddressKnown_none]
      cases hany : db.eth_keys.any fun key => sqlEq key.1 (sqlLower m.AddressTo) with
      | false => rfl
      | true =>
        exact absurd ((IsAddressKnown_iff_registered db m.AddressTo).mp
          (by rw [IsAddressKnown_none, hany])) hreg
    simp [notifierStep, h0, h2, noFaults, hk]
  · intro f
    simp only [notifierStep, h0, h2, if_false]
    cases hf : f.isAddressKnown with
    | some e => simp [IsAddressKnown]
    | none =>
      cases hany : db.eth_keys.any fun key => sqlEq key.1 (sqlLower m.AddressTo) with
      | false => simp [IsAddressKnown, hany]
      | true =>
        have hreg : registered db m.AddressTo :=
          (IsAddressKnown_iff_registered db m.AddressTo).mp
            (by rw [IsAddressKnown_none, hany])
        cases hi : f.insertNotification with
        | some e => simp [IsAddressKnown, hany, InsertNotification]
        | none => simp [IsAddressKnown, hany, InsertNotification, hreg, rowOf]
  · intro a ha
    obtain ⟨hd, _, hv⟩ := repr_decimal a
    exact ⟨by simp [rowOf, ha, Text10], hd, hv⟩

/-- C12 on the message of 10^18 wei to the registered address of `sampleDB`:
one row is inserted, with the amount `1000000000000000000`. -/
theorem Notifier_filter_witness :
    sampleTxMessage.MessageType = NOTIFY_TYPE_TX ∧
    registered sampleDB sampleTxMessage.AddressTo ∧
    (notifierStep sampleDB sampleTxMessage noFaults).notifications =
      sampleDB.notifications ++ [rowOf sampleDB.next_id sampleTxMessage] ∧
    (rowOf sampleDB.next_id sampleTxMessage).amount = "1000000000000000000" :=
  ⟨rfl, ⟨_, List.mem_singleton.mpr rfl, rfl⟩,
   (Notifier_filter sampleDB sampleTxMessage rfl).1 ⟨_, List.mem_singleton.mpr rfl, rfl⟩,
   by decide⟩

/-! ## C15: the amount read back from the store -/

theorem ParseUint_repr (a : Nat) (ha : a < 2 ^ 64) : ParseUint (Nat.repr a) = .ok a := by
  obtain ⟨hd, hne, hv⟩ := repr_decimal a
  unfold decimalValue at hv
  simp only [ParseUint, hne, if_false, hd, if_true, hv, ha]

theorem ParseUint_repr_large (a : Nat) (ha : 2 ^ 64 ≤ a) :
    ParseUint (Nat.repr a) = .error "value out of range" := by
  obtain ⟨hd, hne, hv⟩ := repr_decimal a
  unfold decimalValue at hv
  have hlt : ¬ a < 2 ^ 64 := by omega
  simp only [ParseUint, hne, if_false, hd, if_true, hv, hlt]

/-- C15. The Tx message of `2^64` wei to the registered address of `sampleDB`
is persisted by the Notifier as a row with the amount `18446744073709551616`;
`GetNotifications` then fails in `rows.Scan`, which reads the amount into a
`uint64`, and returns no message. -/
theorem uint64_scan_breaks_round_trip :
    IsAddressKnown none sampleDB (txMessageOf (Int.ofNat (2 ^ 64))).AddressTo = .ok true ∧
    (Notifier sampleDB [(txMessageOf (Int.ofNat (2 ^ 64)), noFaults)]).notifications =
      [rowOf 1 (txMessageOf (Int.ofNat (2 ^ 64)))] ∧
    (rowOf 1 (txMessageOf (Int.ofNat (2 ^ 64)))).amount = "18446744073709551616" ∧
    (GetNotifications noDrainFaults
      (Notifier sampleDB [(txMessageOf (Int.ofNat (2 ^ 64)), noFaults)]) false).1 =
      .value [] (some "sql: Scan error on column index 4: value out of range") := by
  refine ⟨rfl, rfl, by decide, ?_⟩
  decide

/-- Below `2^64` the amount does come back: a Tx message of `a` wei to a
registered address, persisted into an empty table, is the one message
`GetNotifications` returns, with the amount `a`. -/
theorem amount_round_trip_below_uint64 (db : DB) (m : NotifyMessage) (a : Nat)
    (htx : m.MessageType = NOTIFY_TYPE_TX) (hreg : registered db m.AddressTo)
    (hempty : db.notifications = []) (ha : m.Amount = some (Int.ofNat a)) (h64 : a < 2 ^ 64) :
    (GetNotifications noDrainFaults (notifierStep db m noFaults) false).1 =
      .value [{ m with MessageType := 0 }] none := by
  have hrows := (Notifier_filter db m htx).1 hreg
  have hparse : ParseUint (Text10 (some (a : Int))) = .ok a := ParseUint_repr a h64
  simp [GetNotifications, noDrainFaults, selectPage, hrows, hempty, scanLoop, hparse,
    scannedMessage, rowOf, ha]

/-! ## C11: the drain -/

theorem ParseUint_ok_value (s : String) (a : Nat) (h : ParseUint s = .ok a) :
    a = decimalValue s := by
  unfold ParseUint at h
  dsimp only at h
  split_ifs at h
  simp only [Except.ok.injEq] at h
  exact h.symm

theorem scanLoop_ok (rows : List NotificationRow) (id : Nat) (msgs : List NotifyMessage)
    (h : ∀ r ∈ rows, ∃ a, ParseUint r.amount = .ok a) :
    scanLoop rows id msgs =
      (lastScannedId rows id,
       .ok (msgs ++ rows.map fun r => scannedMessage r (decimalValue r.amount))) := by
  induction rows generalizing id msgs with
  | nil => simp [scanLoop, lastScannedId]
  | cons r rest ih =>
    obtain ⟨a, ha⟩ := h r (List.mem_cons_self _ _)
    have hval := ParseUint_ok_value r.amount a ha
    have hrest : ∀ r ∈ rest, ∃ a, ParseUint r.amount = .ok a :=
      fun x hx => h x (List.mem_cons_of_mem _ hx)
    simp [scanLoop, ha, ih r.id _ hrest, lastScannedId, hval]

theorem head_le_lastScannedId (x : NotificationRow) (xs : List NotificationRow)
    (hs : (x :: xs).Sorted idLE) : x.id ≤ lastScannedId xs x.id := by
  induction xs generalizing x with
  | nil => exact Nat.le_refl _
  | cons y ys ih =>
    have hsx := List.sorted_cons.mp hs
    have h1 : idLE x y := hsx.1 y (List.mem_cons_self _ _)
    exact Nat.le_trans h1 (ih y hsx.2)

/-- In a list sorted by id, the id of the last row bounds every id. -/
theorem le_lastScannedId (l : List NotificationRow) (hs : l.Sorted idLE)
    (r : NotificationRow) (hr : r ∈ l) (d : Nat) : r.id ≤ lastScannedId l d := by
  induction l generalizing d with
  | nil => exact absurd hr (List.not_mem_nil _)
  | cons x xs ih =>
    have hsx := List.sorted_cons.mp hs
    rcases List.mem_cons.mp hr with rfl | hr'
    · exact head_le_lastScannedId r xs hs
    · exact ih hsx.2 hr' x.id

theorem lastScannedId_mem (l : List NotificationRow) (hne : l ≠ []) (d : Nat) :
    ∃ x ∈ l, lastScannedId l d = x.id := by
  induction l generalizing d with
  | nil => exact absurd rfl hne
  | cons x xs ih =>
    by_cases hxs : xs = []
    · subst hxs
      exact ⟨x, List.mem_singleton.mpr rfl, rfl⟩
    · obtain ⟨y, hy, he⟩ := ih hxs x.id
      exact ⟨y, List.mem_cons_of_mem _ hy, he⟩

/-- With unique ids, the rows of the table up to the last scanned id are the
rows of the page. -/
theorem le_lastId_iff_mem_page (db : DB) (hid : (db.notifications.map fun r => r.id).Nodup)
    (r : NotificationRow) (hr : r ∈ db.notifications) :
    r.id ≤ lastScannedId (selectPage db) 0 ↔ r ∈ selectPage db := by
  have hsorted : (db.notifications.insertionSort idLE).Sorted idLE :=
    List.sorted_insertionSort idLE _
  have hperm := List.perm_insertionSort idLE db.notifications
  have hsplit := List.take_append_drop 100 (db.notifications.insertionSort idLE)
  have hpage : (selectPage db).Sorted idLE := by
    unfold selectPage
    exact hsorted.sublist (List.take_sublist _ _)
  constructor
  · intro hle
    by_contra hnot
    have hmem : r ∈ db.notifications.insertionSort idLE := hperm.mem_iff.mpr hr
    rw [← hsplit] at hmem
    have hdrop : r ∈ (db.notifications.insertionSort idLE).drop 100 := by
      rcases List.mem_append.mp hmem with h | h
      · exact absurd h hnot
      · exact h
    have hne : selectPage db ≠ [] := by
      intro he
      unfold selectPage at he
      have hnil : db.notifications.insertionSort idLE = [] := by
        rcases List.take_eq_nil_iff.mp he with h | h
        · exact absurd h (by decide)
        · exact h
      rw [hnil] at hdrop
      simp at hdrop
    obtain ⟨x, hx, hlast⟩ := lastScannedId_mem (selectPage db) hne 0
    rw [hlast] at hle
    have hpair : List.Pairwise idLE
        ((db.notifications.insertionSort idLE).take 100 ++
          (db.notifications.insertionSort idLE).drop 100) := by
      rw [hsplit]; exact hsorted
    have hcross : idLE x r := (List.pairwise_append.mp hpair).2.2 x hx r hdrop
    have heq : x.id = r.id := Nat.le_antisymm hcross hle
    have hnodup : ((db.notifications.insertionSort idLE).map fun r => r.id).Nodup :=
      (hperm.map _).nodup_iff.mpr hid
    rw [← hsplit, List.map_append] at hnodup
    have hdisj := (List.nodup_append.mp hnodup).2.2
    exact hdisj (List.mem_map_of_mem _ hx) (heq ▸ List.mem_map_of_mem (fun r => r.id) hdrop)
  · intro hmem
    exact le_lastScannedId (selectPage db) hpage r hmem 0

/-- The drain on a table whose amounts all read as a `uint64` and whose ids
are unique, when no store operation fails: the call returns the rows of the
page, the `min(100, n)` rows with the smallest ids in ascending order; with
`remove` the table afterwards holds exactly the rows that were not returned,
without it the table is unchanged. -/
theorem GetNotifications_drain (db : DB) (remove : Bool)
    (hamt : ∀ r ∈ db.notifications, ∃ a, ParseUint r.amount = .ok a)
    (hid : (db.notifications.map fun r => r.id).Nodup) :
    GetNotifications noDrainFaults db remove =
      (.value ((selectPage db).map fun r => scannedMessage r (decimalValue r.amount)) none,
       if remove then
         { db with notifications := db.notifications.filter fun r => decide (r ∉ selectPage db) }
       else db) ∧
    (selectPage db).length = min 100 db.notifications.length ∧
    (selectPage db).Sorted idLE ∧
    (∀ r ∈ selectPage db, r ∈ db.notifications) ∧
    (∀ r ∈ selectPage db, ∀ x ∈ db.notifications, x ∉ selectPage db → r.id ≤ x.id) := by
  have hsorted : (db.notifications.insertionSort idLE).Sorted idLE :=
    List.sorted_insertionSort idLE _
  have hperm := List.perm_insertionSort idLE db.notifications
  have hsub : ∀ r ∈ selectPage db, r ∈ db.notifications := fun r hr =>
    hperm.mem_iff.mp (List.mem_of_mem_take hr)
  have hpage : (selectPage db).Sorted idLE := by
    unfold selectPage
    exact hsorted.sublist (List.take_sublist _ _)
  have hscan := scanLoop_ok (selectPage db) 0 [] (fun r hr => hamt r (hsub r hr))
  refine ⟨?_, ?_, hpage, hsub, ?_⟩
  · cases remove with
    | false => simp [GetNotifications, noDrainFaults, hscan]
    | true =>
      have hfilter : (db.notifications.filter fun row =>
            !decide (row.id ≤ lastScannedId (selectPage db) 0)) =
          db.notifications.filter fun r => decide (r ∉ selectPage db) := by
        apply List.filter_congr
        intro r hr
        have := le_lastId_iff_mem_page db hid r hr
        by_cases hm : r ∈ selectPage db
        · simp [hm, this.mpr hm]
        · have hn : ¬ r.id ≤ lastScannedId (selectPage db) 0 :=
            fun h => hm (this.mp h)
          simp [hm, hn]
      simp [GetNotifications, noDrainFaults, hscan, hfilter]
  · simp [selectPage, List.length_take, List.length_insertionSort]
  · intro r hr x hx hnot
    by_contra hlt
    have hle : x.id ≤ r.id := by omega
    have h1 := le_lastScannedId (selectPage db) hpage r hr 0
    exact hnot ((le_lastId_iff_mem_page db hid x hx).mp (Nat.le_trans hle h1))

/-- C11. On a table of two rows, the second holding the amount `2^64` that the
Notifier stored for a Tx message, `GetNotifications` with `remove` fails in
`rows.Scan`: it returns no row where the claim has it return both, and the
table afterwards still holds both rows where the claim has it empty. -/
theorem drain_blocked_by_large_amount :
    (Notifier sampleDB
      [(txMessageOf 5, noFaults), (txMessageOf (Int.ofNat (2 ^ 64)), noFaults)]).notifications =
      [rowOf 1 (txMessageOf 5), rowOf 2 (txMessageOf (Int.ofNat (2 ^ 64)))] ∧
    (GetNotifications noDrainFaults
      (storeOf [rowOf 1 (txMessageOf 5), rowOf 2 (txMessageOf (Int.ofNat (2 ^ 64)))]) true).1 =
      .value [] (some "sql: Scan error on column index 4: value out of range") ∧
    (GetNotifications noDrainFaults
      (storeOf [rowOf 1 (txMessageOf 5), rowOf 2 (txMessageOf (Int.ofNat (2 ^ 64)))])
      true).2.notifications =
      [rowOf 1 (txMessageOf 5), rowOf 2 (txMessageOf (Int.ofNat (2 ^ 64)))] := by
  refine ⟨rfl, ?_, ?_⟩ <;> decide

set_option maxRecDepth 100000 in
/-- The drain of 150 rows with the ids 1 to 150 and the amounts 1 to 150: the
100 rows with the ids 1 to 100 are returned in ascending order and deleted,
the 50 rows with the ids 101 to 150 stay as they were. -/
theorem drain_of_150_rows :
    (GetNotifications noDrainFaults (storeOf (rowsDown 150)) true).1 =
      .value ((List.range' 1 100).map fun i =>
        { txMessageOf (Int.ofNat i) with MessageType := 0 }) none ∧
    (GetNotifications noDrainFaults (storeOf (rowsDown 150)) true).2.notifications =
      (rowsDown 150).take 50 ∧
    ((rowsDown 150).take 50).map (fun r => r.id) = (List.range' 101 50).reverse ∧
    (GetNotifications noDrainFaults (storeOf (rowsDown 150)) false).2.notifications =
      rowsDown 150 := by
  refine ⟨?_, ?_, ?_, ?_⟩ <;> decide

/-! ## C14: a first header at or below the checkpoint -/

theorem gapFill_calls_mono (lib : Geth) (client : Client) (fuel last number : Nat)
    (st st' : ListenerState) (out : List (NotifyMessage × Bool))
    (h : gapFill lib client fuel last number st out = some st') :
    ∀ c ∈ st.calls, c ∈ st'.calls := by
  induction fuel generalizing last st out with
  | zero => simp [gapFill] at h
  | succ fuel ih =>
    unfold gapFill at h
    by_cases hne : last = number
    · simp only [hne, ne_eq, not_true_eq_false, if_false, Option.some.injEq] at h
      subst h
      exact fun c hc => hc
    · simp only [hne, ne_eq, not_false_eq_true, if_true] at h
      intro c hc
      split at h
      · exact ih _ _ _ h c (List.mem_append_left _ hc)
      · exact ih _ _ _ h c (List.mem_append_left _ hc)

theorem recoveryLoop_calls_mono (lib : Geth) (client : Client) (fuel last number : Nat)
    (st st' : ListenerState) (h : recoveryLoop lib client fuel last number st = some st') :
    ∀ c ∈ st.calls, c ∈ st'.calls :=
  gapFill_calls_mono lib client fuel last number st st' [] h

/-- A recovery loop that starts away from the header number and ends has
fetched the block `last` by number. -/
theorem recoveryLoop_first_call (lib : Geth) (client : Client) (fuel last number : Nat)
    (st st' : ListenerState) (hne : last ≠ number)
    (h : recoveryLoop lib client fuel last number st = some st') :
    RpcCall.blockByNumber (some last) ∈ st'.calls := by
  unfold recoveryLoop at h
  cases fuel with
  | zero => simp [gapFill] at h
  | succ fuel =>
    unfold gapFill at h
    simp only [hne, ne_eq, not_false_eq_true, if_true] at h
    have hin : RpcCall.blockByNumber (some last) ∈
        st.calls ++ [readBlockCall "" (some last)] := by
      simp [readBlockCall]
    split at h
    · exact gapFill_calls_mono lib client _ _ _ _ _ _ h _ hin
    · exact gapFill_calls_mono lib client _ _ _ _ _ _ h _ hin

theorem gapFill_above_header (fuel last : Nat) (st : ListenerState)
    (out : List (NotifyMessage × Bool)) (hlast : 100 < last) (hfuel : last + fuel ≤ 2 ^ 64) :
    gapFill stubGeth sampleClient fuel last 100 st out = none := by
  induction fuel generalizing last st out with
  | zero => rfl
  | succ f ih =>
    have hne : last ≠ 100 := by omega
    have hparse : allParse stubGeth (sampleBlock last) := by
      intro tx htx
      simp only [sampleBlock, List.mem_singleton] at htx
      subst htx
      exact ⟨_, rfl⟩
    have hrb := ReadBlock_by_number stubGeth sampleClient st.calls.length last
      (sampleBlock last) rfl hparse
    simp only [gapFill, hne, ne_eq, not_false_eq_true, if_true, hrb]
    cases f with
    | zero => rfl
    | succ g =>
      have hnext : (last % 2 ^ 64 + 1) % 2 ^ 64 = last + 1 := by
        rw [Nat.mod_eq_of_lt (by omega), Nat.mod_eq_of_lt (by omega)]
      rw [hnext]
      exact ih (last + 1) _ _ (by omega) (by omega)

/-- On the toy chain the recovery loop towards the header number 100, started
above it, is still running when `fuel` iterations are done, as long as the
cursor stays below `2^64`. -/
theorem recoveryLoop_above_header (fuel last : Nat) (st : ListenerState) (hlast : 100 < last)
    (hfuel : last + fuel ≤ 2 ^ 64) :
    recoveryLoop stubGeth sampleClient fuel last 100 st = none :=
  gapFill_above_header fuel last st [] hlast hfuel

/-- A block header handled with a cursor: the state the recovery loop ends
in, whose requests are all among those of the step. -/
theorem listenerStep_after_recovery (lib : Geth) (client : Client) (fuel : Nat)
    (st st' : ListenerState) (m : ObjMessage) (hm : m.Kind = TYPE_BLOCK_HASH)
    (hid : st.last_id ≠ 0) (h : listenerStep lib client fuel st m = some st') :
    ∃ s, recoveryLoop lib client fuel ((st.last_id + 1) % 2 ^ 64) m.Number st = some s ∧
      ∀ c ∈ s.calls, c ∈ st'.calls := by
  unfold listenerStep at h
  simp only [hm, if_true, hid, ne_eq, not_false_eq_true] at h
  revert h
  generalize recoveryLoop lib client fuel _ m.Number st = r
  intro h
  cases r with
  | none => simp at h
  | some s =>
    refine ⟨s, rfl, ?_⟩
    simp only [Option.map_some'] at h
    split at h <;> simp only [Option.some.injEq] at h <;> subst h <;>
      exact fun c hc => List.mem_append_left _ hc

/-- C14. With the checkpoint `K = 100` and a first header of number
`N = 100 <= K`, on the toy chain: the gap-fill starts at 101, which is not
`N`, so every run of the Listener that gets past it has fetched block 101 by
number, and no run gets past it within `2^64 - 101` iterations of the loop,
where the claim has the gap-fill end at once with no fetch. -/
theorem gap_fill_runs_past_old_header :
    (¬ ∃ fuel st, Listener stubGeth sampleClient fuel
        [{ Kind := TYPE_BLOCK_HASH, Hash := "0x64", Number := 100 }] 100 = some st ∧
        RpcCall.blockByNumber (some 101) ∉ st.calls) ∧
    (¬ ∃ fuel st, fuel ≤ 2 ^ 64 - 101 ∧ Listener stubGeth sampleClient fuel
        [{ Kind := TYPE_BLOCK_HASH, Hash := "0x64", Number := 100 }] 100 = some st) := by
  constructor
  · rintro ⟨fuel, st, h, hnot⟩
    simp only [Listener, listenerRun] at h
    cases hstep : listenerStep stubGeth sampleClient fuel
        { last_id := 100, sent := [], calls := [] }
        { Kind := TYPE_BLOCK_HASH, Hash := "0x64", Number := 100 } with
    | none => simp [hstep] at h
    | some st1 =>
      simp only [hstep, Option.some.injEq] at h
      subst h
      obtain ⟨s, hrec, hsub⟩ := listenerStep_after_recovery stubGeth sampleClient fuel _ st1 _
        rfl (by decide) hstep
      have hcall := recoveryLoop_first_call stubGeth sampleClient fuel _ _ _ s
        (by decide) hrec
      exact hnot (hsub _ hcall)
  · rintro ⟨fuel, st, hfuel, h⟩
    have hloop := recoveryLoop_above_header fuel 101
      { last_id := 100, sent := [], calls := [] } (by decide) (by omega)
    have hK1 : (100 + 1) % 2 ^ 64 = 101 := by norm_num
    simp only [Listener, listenerRun, listenerStep, TYPE_BLOCK_HASH, if_true, ne_eq,
      OfNat.ofNat_ne_zero, not_false_eq_true, hK1, hloop, Option.map_none'] at h
    exact absurd h (by simp)

/-- The half of C14 that holds: when the first header is the block right
after the checkpoint, the gap-fill ends at once with no fetch by number and no
message, `last_id` becomes 0, and the block of the header is fetched by hash
and its messages and admin message are sent. -/
theorem gap_fill_adjacent_header (lib : Geth) (client : Client) (fuel K : Nat) (h : String)
    (b : Block) (hK : 0 < K) (hK64 : K + 1 < 2 ^ 64) (hfuel : 0 < fuel) (hh : h ≠ "")
    (hfetch : client.BlockByHash 0 (lib.HexToHash h) = .ok b) (hparse : allParse lib b) :
    Listener lib client fuel [{ Kind := TYPE_BLOCK_HASH, Hash := h, Number := K + 1 }] K =
      some { last_id := 0
             sent := blockEvents lib b ++ [adminMessage (some (Int.ofNat b.number))]
             calls := [RpcCall.blockByHash h] } := by
  have hK1 : (K + 1) % 2 ^ 64 = K + 1 := Nat.mod_eq_of_lt hK64
  have hid : K ≠ 0 := by omega
  have hrb := ReadBlock_by_hash lib client 0 h b hh hfetch hparse
  have hloop := recoveryLoop_fill lib client (fun _ => b) (K + 1) hK64 0 fuel (K + 1)
    { last_id := K, sent := [], calls := [] } rfl hfuel
    (fun t n h1 h2 => by omega) (fun n h1 h2 => by omega)
  simp only [List.range'_zero, List.flatMap_nil, List.map_nil, List.append_nil] at hloop
  simp only [Listener, listenerRun, listenerStep, if_true, hid, ne_eq, not_false_eq_true, hK1,
    hloop, Option.map_some', List.length_nil, hrb, readBlockCall_hash h none hh]
  simp

/-! ## C13: a frame for an unknown subscription -/

/-- C13 as the claim states it fails: after both subscriptions are accepted, a
frame for the id `0xffff…ffff`, which is neither of the two, with a block
header as its result makes `ConnectWS` send a block message for it; the same
frame followed by one for that id with a text as its result makes `ConnectWS`
return an error. -/
theorem unknown_subscription_is_read_as_header :
    ConnectWS stubJson (wireOf [frameUnknownHeader]) =
      { sent := [{ Kind := TYPE_BLOCK_HASH, Hash := "0x0b", Number := 103 }]
        ended := .reading } ∧
    ConnectWS stubJson (wireOf [frameUnknownHeader, frameUnknownText]) =
      { sent := [{ Kind := TYPE_BLOCK_HASH, Hash := "0x0b", Number := 103 }]
        ended := .returned ("Could not decode message/parse json: json: cannot unmarshal " ++
          "string into Go struct field Params.Result of type main.BlockHeader") } :=
  ⟨rfl, rfl⟩

/-- C13, amended. For every push frame that decodes and whose
`params.subscription` is not the pending-transactions id, whether or not it is
the id of `newHeads`, `ConnectWS` decodes the frame as a block header: when
the header decodes and its number is a hex quantity, a block message with the
hash and the number is sent and the reading goes on; when the header does not
decode, or its number is not a hex quantity, `ConnectWS` returns an error and
sends nothing for the frame. -/
theorem readLoop_other_subscription (codec : JsonCodec) (subHashTransactions message : String)
    (rest : List (Except String String)) (sent : List ObjMessage) (response : ResponseMessage)
    (hdec : codec.UnmarshalResponseMessage message = .ok response)
    (hsub : response.Params.Subscription ≠ subHashTransactions) :
    (∀ header number, codec.UnmarshalBlockHeader message = .ok header →
      DecodeBig header.Number = .ok number →
      readLoop codec subHashTransactions (.ok message :: rest) sent =
        readLoop codec subHashTransactions rest
          (sent ++ [{ Kind := TYPE_BLOCK_HASH, Hash := header.Hash, Number := number }])) ∧
    (∀ err, codec.UnmarshalBlockHeader message = .error err →
      readLoop codec subHashTransactions (.ok message :: rest) sent =
        { sent := sent
          ended := .returned ("Could not decode message/parse json: " ++ err) }) ∧
    (∀ header err, codec.UnmarshalBlockHeader message = .ok header →
      DecodeBig header.Number = .error err →
      readLoop codec subHashTransactions (.ok message :: rest) sent =
        { sent := sent, ended := .returned ("Could not decode block number: " ++ err) }) := by
  have hne : (response.Params.Subscription == subHashTransactions) = false := by
    simp [hsub]
  refine ⟨?_, ?_, ?_⟩
  · intro header number hh hn
    simp only [readLoop, hdec, hne, hh, hn]
    simp
  · intro err hh
    simp only [readLoop, hdec, hne, hh]
    simp
  · intro header err hh hn
    simp only [readLoop, hdec, hne, hh, hn]
    simp

/-- C13, amended, on the frame for the unknown id with a header as result,
read after nothing else. -/
theorem readLoop_other_subscription_witness :
    readLoop stubJson "0xc3b33aa549fb9a60e95d21862596617c" (.ok frameUnknownHeader :: []) [] =
      readLoop stubJson "0xc3b33aa549fb9a60e95d21862596617c" []
        ([] ++ [{ Kind := TYPE_BLOCK_HASH, Hash := "0x0b", Number := 103 }]) :=
  (readLoop_other_subscription stubJson "0xc3b33aa549fb9a60e95d21862596617c"
    frameUnknownHeader [] []
    { JsonRPC := "2.0", Method := "eth_subscription",
      Params := { Subscription := "0xffffffffffffffffffffffffffffffff", Result := .map } }
    rfl (by decide)).1
    { ParentHash := "", Difficulty := "", Number := "0x67", GasLimit := "", GasUsed := "",
      Timestamp := "", Hash := "0x0b" } 103 rfl rfl

/-! ## C16: panics of `ConnectWS` -/

/-- C16. A node that answers the subscription `newHeads` with a JSON-RPC error
leaves the id empty, and `ConnectWS` panics in the slice `subHashHeads[:12]`
of its log line; after two accepted subscriptions, a frame for the
pending-transactions id whose result is the number 5 makes `ConnectWS` panic
in the type assertion `Result.(string)`. -/
theorem ConnectWS_panics :
    ConnectWS stubJson
        { dial := none, writerNewHeads := none, writerPending := none,
          reads := [.ok replyRefused, .ok replyPending] } =
      { sent := [], ended := .panicked "runtime error: slice bounds out of range" } ∧
    ConnectWS stubJson (wireOf [framePendingNumber]) =
      { sent := [], ended := .panicked "interface conversion: interface is not string" } :=
  ⟨rfl, rfl⟩

/-- The two panics for every decoder: `ConnectWS` panics whenever one of the
two subscription ids is shorter than 12 bytes, and the loop panics on every
frame for the pending-transactions id whose result is not a string. -/
theorem ConnectWS_panic_conditions (codec : JsonCodec) (wire : Wire)
    (subHashHeads subHashTransactions : String) (reads1 reads2 : List (Except String String))
    (hdial : wire.dial = none)
    (h1 : SendMessage codec wire.writerNewHeads wire.reads = some (.ok subHashHeads, reads1))
    (h2 : SendMessage codec wire.writerPending reads1 = some (.ok subHashTransactions, reads2)) :
    ((subHashHeads.utf8ByteSize < 12 ∨ subHashTransactions.utf8ByteSize < 12) →
      ConnectWS codec wire =
        { sent := [], ended := .panicked "runtime error: slice bounds out of range" }) ∧
    (12 ≤ subHashHeads.utf8ByteSize → 12 ≤ subHashTransactions.utf8ByteSize →
      ConnectWS codec wire = readLoop codec subHashTransactions reads2 []) ∧
    (∀ message rest sent response,
      codec.UnmarshalResponseMessage message = .ok response →
      response.Params.Subscription = subHashTransactions →
      (∀ s, response.Params.Result ≠ .str s) →
      readLoop codec subHashTransactions (.ok message :: rest) sent =
        { sent := sent, ended := .panicked "interface conversion: interface is not string" }) := by
  refine ⟨?_, ?_, ?_⟩
  · intro h
    have hb : (decide (subHashHeads.utf8ByteSize < 12) ||
        decide (subHashTransactions.utf8ByteSize < 12)) = true := by
      rcases h with h | h <;> simp [h]
    simp only [ConnectWS, hdial, h1, h2, hb, if_true]
  · intro ha hb
    have hc : (decide (subHashHeads.utf8ByteSize < 12) ||
        decide (subHashTransactions.utf8ByteSize < 12)) = false := by
      simp; omega
    simp only [ConnectWS, hdial, h1, h2, hc]
    simp
  · intro message rest sent response hdec hsub hres
    have he : (response.Params.Subscription == subHashTransactions) = true := by
      simp [hsub]
    cases hr : response.Params.Result with
    | str s => exact absurd hr (hres s)
    | nil => simp only [readLoop, hdec, he, if_true, hr]
    | bool b => simp only [readLoop, hdec, he, if_true, hr]
    | float64 => simp only [readLoop, hdec, he, if_true, hr]
    | slice => simp only [readLoop, hdec, he, if_true, hr]
    | map => simp only [readLoop, hdec, he, if_true, hr]

end EthWatcher
